import Mathlib

/-!
Verification development for the rawsample / audioboiler repository.

The repository has two layers:

* a codec layer (`rawsample`, `src/src/lib.rs`): pure conversions between
  `f32`/`f64` sample values in the normalized range `[-1.0, +1.0)` and raw
  byte encodings (signed 16/24/32-bit integers and 32/64-bit IEEE floats,
  little and big endian);
* a buffer layer (`audioboiler_traits`, `audioboiler_buffers`): layout
  wrappers exposing `(channel, frame)` access over sequential or
  interleaved storage, plus bulk transfer, construction checks and
  statistics.

Sample values are embedded as rationals (`ℚ`).  For the operations the
claims quantify over, every floating-point step of the source is exact —
multiplication and division by a power of two never rounds (absent
overflow, which only occurs far outside the ranges at issue and is noted
where relevant), comparisons are exact, and `as` casts to integers
truncate — so exact rational arithmetic is a faithful model there.  The
two places where the source genuinely rounds are conversions INTO `f32`
(`intvalue as f32`, `*self as f32`): these are modelled explicitly by
`roundIntF32` / `roundF32q`, round-to-nearest-even at 24 significand
bits, the IEEE binary32 rounding the hardware performs.  IEEE byte
serialisation (`to_le_bytes` / `from_le_bytes` on floats) is modelled by
explicit bit-level encoders/decoders (`f32bits`, `parseF32bits`, …).
Byte arrays `[u8; k]` are `List ℕ` with entries below 256.
-/

namespace RawSample

/-- Byte `i` (little-endian position) of the natural number `n`:
models indexing into `to_le_bytes` output. -/
def byteAt (n : ℕ) (i : ℕ) : ℕ := n / 256 ^ i % 256

/-- Reassemble a little-endian byte list into a natural number:
models `u{16,32}::from_le_bytes`. -/
def fromLeBytes (bs : List ℕ) : ℕ := bs.foldr (fun b acc => b + 256 * acc) 0

/-- Reassemble a big-endian byte list into a natural number:
models `u{16,32}::from_be_bytes`. -/
def fromBeBytes (bs : List ℕ) : ℕ := bs.foldl (fun acc b => 256 * acc + b) 0

/-- The two's-complement `u16` bit pattern of an `i16` value. -/
def u16ofI16 (k : ℤ) : ℕ := (k % 65536).toNat

/-- The two's-complement `u32` bit pattern of an `i32` value. -/
def u32ofI32 (k : ℤ) : ℕ := (k % 4294967296).toNat

/-- Reinterpret a `u16` bit pattern as a signed `i16`
(models `i16::from_le_bytes` / `from_be_bytes` after byte assembly). -/
def i16ofU16 (n : ℕ) : ℤ := if n < 32768 then (n : ℤ) else (n : ℤ) - 65536

/-- Reinterpret a `u32` bit pattern as a signed `i32`
(models `i32::from_le_bytes` / `from_be_bytes` after byte assembly). -/
def i32ofU32 (n : ℕ) : ℤ := if n < 2147483648 then (n : ℤ) else (n : ℤ) - 4294967296

/-- `(k as i16).to_le_bytes` for an in-range `i16` value `k`. -/
def i16leBytes (k : ℤ) : List ℕ := [byteAt (u16ofI16 k) 0, byteAt (u16ofI16 k) 1]

/-- `(k as i16).to_be_bytes`. -/
def i16beBytes (k : ℤ) : List ℕ := [byteAt (u16ofI16 k) 1, byteAt (u16ofI16 k) 0]

/-- `(k as i32).to_le_bytes`. -/
def i32leBytes (k : ℤ) : List ℕ :=
  [byteAt (u32ofI32 k) 0, byteAt (u32ofI32 k) 1, byteAt (u32ofI32 k) 2, byteAt (u32ofI32 k) 3]

/-- `(k as i32).to_be_bytes`. -/
def i32beBytes (k : ℤ) : List ℕ :=
  [byteAt (u32ofI32 k) 3, byteAt (u32ofI32 k) 2, byteAt (u32ofI32 k) 1, byteAt (u32ofI32 k) 0]

/-- Truncation toward zero: the rounding Rust uses for float-to-integer
`as` casts (before saturation). -/
def rustTrunc (x : ℚ) : ℤ := if 0 ≤ x then ⌊x⌋ else -⌊-x⌋

/-- Rust `as i16` on a float: truncate toward zero, saturating at the
type's bounds (float-to-int `as` casts saturate since Rust 1.45). -/
def i16cast (x : ℚ) : ℤ := max (-32768) (min 32767 (rustTrunc x))

/-- Rust `as i32` on a float: truncate toward zero, saturating at the
type's bounds. -/
def i32cast (x : ℚ) : ℤ := max (-2147483648) (min 2147483647 (rustTrunc x))

/-- Floor of log2 on naturals via fuel recursion (64 suffices for
every quantity in this development); `nlog2 0 = nlog2 1 = 0`. -/
def nlog2aux : ℕ → ℕ → ℕ
  | 0, _ => 0
  | fuel + 1, n => if n ≤ 1 then 0 else nlog2aux fuel (n / 2) + 1

/-- Floor of log2 on naturals, total, for arguments below `2 ^ 64`. -/
def nlog2 (n : ℕ) : ℕ := nlog2aux 64 n

/-- Floor of log2 of a positive rational: the binary exponent `e` with
`2 ^ e ≤ x < 2 ^ (e + 1)`. -/
def qlog2 (x : ℚ) : ℤ :=
  let a : ℤ := nlog2 x.num.natAbs
  let b : ℤ := nlog2 x.den
  if (2 : ℚ) ^ (a - b) ≤ x then a - b else a - b - 1

/-- IEEE binary32 round-to-nearest-even restricted to integers: models
the rounding performed by `intvalue as f32` in the integer decoders.
Integers of magnitude below `2 ^ 24` are exactly representable and kept;
larger ones are rounded to the nearest multiple of `2 ^ (e - 23)`
(`e` the binary exponent), ties to even. -/
def roundIntF32 (n : ℤ) : ℤ :=
  if n.natAbs < 16777216 then n
  else
    let m := n.natAbs
    let e := nlog2 m
    let u := 2 ^ (e - 23)
    let q := m / u
    let r := m % u
    let m2 := if 2 * r < u then q * u
      else if u < 2 * r then (q + 1) * u
      else if q % 2 = 0 then q * u else (q + 1) * u
    n.sign * (m2 : ℤ)

/-- IEEE binary32 round-to-nearest-even on rationals: models `x as f32`
narrowing from `f64`.  Rounds to a multiple of `2 ^ (e - 23)` where `e`
is the binary exponent floored at `-126` (subnormal range), ties to
even.  Overflow to infinity is not modelled (every value this
development narrows is far below the `f32` maximum). -/
def roundF32q (x : ℚ) : ℚ :=
  if x = 0 then 0
  else
    let e := max (qlog2 |x|) (-126)
    let u : ℚ := 2 ^ (e - 23)
    let m := x / u
    let n := ⌊m⌋
    let r := m - (n : ℚ)
    let n2 := if r < 1 / 2 then n else if 1 / 2 < r then n + 1
      else if n % 2 = 0 then n else n + 1
  (n2 : ℚ) * u

/-- Decode an IEEE binary32 bit pattern (as a `u32`) to its exact
rational value: models `f32::from_le_bytes` / `from_be_bytes` after
byte assembly.  Exponent field 255 (infinities, NaNs) is outside the
rational model; no claim quantifies over such patterns. -/
def parseF32bits (n : ℕ) : ℚ :=
  let s : ℚ := if n / 2 ^ 31 % 2 = 1 then -1 else 1
  let e : ℕ := n / 2 ^ 23 % 2 ^ 8
  let m : ℕ := n % 2 ^ 23
  if e = 0 then s * (m : ℚ) * (2 : ℚ) ^ (-149 : ℤ)
  else s * ((2 ^ 23 + m : ℕ) : ℚ) * (2 : ℚ) ^ ((e : ℤ) - 150)

/-- Decode an IEEE binary64 bit pattern (as a `u64`) to its exact
rational value: models `f64::from_le_bytes` / `from_be_bytes` after
byte assembly. -/
def parseF64bits (n : ℕ) : ℚ :=
  let s : ℚ := if n / 2 ^ 63 % 2 = 1 then -1 else 1
  let e : ℕ := n / 2 ^ 52 % 2 ^ 11
  let m : ℕ := n % 2 ^ 52
  if e = 0 then s * (m : ℚ) * (2 : ℚ) ^ (-1074 : ℤ)
  else s * ((2 ^ 52 + m : ℕ) : ℚ) * (2 : ℚ) ^ ((e : ℤ) - 1075)

/-- Encode a rational that is a finite binary32 value into its IEEE
bit pattern: models `f32::to_le_bytes` / `to_be_bytes` before byte
splitting.  (On rationals that are not binary32 values the result is
some nearby pattern; all uses are guarded by `isF32bits`.) -/
def f32bits (x : ℚ) : ℕ :=
  if x = 0 then 0
  else
    let s := if x < 0 then 2 ^ 31 else 0
    let a := |x|
    let e := qlog2 a
    if -126 ≤ e then
      s + (e + 127).toNat * 2 ^ 23 + (⌊a * (2 : ℚ) ^ ((23 : ℤ) - e)⌋.toNat - 2 ^ 23)
    else s + ⌊a * (2 : ℚ) ^ (149 : ℤ)⌋.toNat

/-- Encode a rational that is a finite binary64 value into its IEEE
bit pattern: models `f64::to_le_bytes` / `to_be_bytes` before byte
splitting. -/
def f64bits (x : ℚ) : ℕ :=
  if x = 0 then 0
  else
    let s := if x < 0 then 2 ^ 63 else 0
    let a := |x|
    let e := qlog2 a
    if -1022 ≤ e then
      s + (e + 1023).toNat * 2 ^ 52 + (⌊a * (2 : ℚ) ^ ((52 : ℤ) - e)⌋.toNat - 2 ^ 52)
    else s + ⌊a * (2 : ℚ) ^ (1074 : ℤ)⌋.toNat

/-- The `u32` bit pattern `n` split as `to_le_bytes` does. -/
def leBytes4 (n : ℕ) : List ℕ := [byteAt n 0, byteAt n 1, byteAt n 2, byteAt n 3]

/-- The `u32` bit pattern `n` split as `to_be_bytes` does. -/
def beBytes4 (n : ℕ) : List ℕ := [byteAt n 3, byteAt n 2, byteAt n 1, byteAt n 0]

/-- The `u64` bit pattern `n` split as `to_le_bytes` does. -/
def leBytes8 (n : ℕ) : List ℕ :=
  [byteAt n 0, byteAt n 1, byteAt n 2, byteAt n 3, byteAt n 4, byteAt n 5, byteAt n 6, byteAt n 7]

/-- The `u64` bit pattern `n` split as `to_be_bytes` does. -/
def beBytes8 (n : ℕ) : List ℕ :=
  [byteAt n 7, byteAt n 6, byteAt n 5, byteAt n 4, byteAt n 3, byteAt n 2, byteAt n 1, byteAt n 0]

/-- The rational `x` is a finite binary32 value: its bit encoding fits
in 32 bits and decodes back to `x`, and binary32 rounding fixes it. -/
def isF32 (x : ℚ) : Prop :=
  f32bits x < 2 ^ 32 ∧ parseF32bits (f32bits x) = x ∧ roundF32q x = x

/-- The rational `x` is a finite binary64 value: its bit encoding fits
in 64 bits and decodes back to `x`. -/
def isF64 (x : ℚ) : Prop :=
  f64bits x < 2 ^ 64 ∧ parseF64bits (f64bits x) = x

/-- Source `clamp_int` (`src/src/lib.rs:352`): clamp a float to the range
of an integer type, reporting whether clamping occurred.  `lo`/`hi` are
`T::from(U::min_value()/max_value())`, i.e. the integer bounds as seen in
the float type `T` — exact for `f64` and for `i16` in `f32`, but
`i32::MAX as f32` rounds UP to `2^31 = 2147483648`, which callers below
pass explicitly. -/
def clamp_int (lo hi x : ℚ) : ℚ × Bool :=
  if hi < x then (hi, true) else if x < lo then (lo, true) else (x, false)

/-- Source `clamp_float` (`src/src/lib.rs:362`): clamp a float to
`[-1, 1]`, clipping at `value >= 1.0` and `value < -1.0`. -/
def clamp_float (x : ℚ) : ℚ × Bool :=
  if 1 ≤ x then (1, true) else if x < -1 then (-1, true) else (x, false)

end RawSample

namespace SampleF64

/-! `impl Sample<f64> for f64` (`src/src/lib.rs:371`).  The constants are
`MAX_I32 = 2147483648.0`, `MAX_I16 = 32768.0`; the `clamp_int` bounds for
`i16`/`i32` are exact in `f64`: `-32768..32767` and
`-2147483648..2147483647`. -/

open RawSample

/-- `<f64 as Sample<f64>>::to_s16_le`. -/
def to_s16_le (v : ℚ) : List ℕ × Bool :=
  let c := clamp_int (-32768) 32767 (v * 32768)
  (i16leBytes (i16cast c.1), c.2)

/-- `<f64 as Sample<f64>>::to_s16_be`. -/
def to_s16_be (v : ℚ) : List ℕ × Bool :=
  let c := clamp_int (-32768) 32767 (v * 32768)
  (i16beBytes (i16cast c.1), c.2)

/-- `<f64 as Sample<f64>>::to_s32_le`. -/
def to_s32_le (v : ℚ) : List ℕ × Bool :=
  let c := clamp_int (-2147483648) 2147483647 (v * 2147483648)
  (i32leBytes (i32cast c.1), c.2)

/-- `<f64 as Sample<f64>>::to_s32_be`. -/
def to_s32_be (v : ℚ) : List ℕ × Bool :=
  let c := clamp_int (-2147483648) 2147483647 (v * 2147483648)
  (i32beBytes (i32cast c.1), c.2)

/-- `<f64 as Sample<f64>>::to_s24_3_le`: scale by `MAX_I32`, clamp to the
`i32` range, cast, then keep bytes 1..3 of the little-endian encoding. -/
def to_s24_3_le (v : ℚ) : List ℕ × Bool :=
  let c := clamp_int (-2147483648) 2147483647 (v * 2147483648)
  let u := u32ofI32 (i32cast c.1)
  ([byteAt u 1, byteAt u 2, byteAt u 3], c.2)

/-- `<f64 as Sample<f64>>::to_s24_3_be`: keep bytes 0..2 of the
big-endian encoding (the three most significant bytes). -/
def to_s24_3_be (v : ℚ) : List ℕ × Bool :=
  let c := clamp_int (-2147483648) 2147483647 (v * 2147483648)
  let u := u32ofI32 (i32cast c.1)
  ([byteAt u 3, byteAt u 2, byteAt u 1], c.2)

/-- `<f64 as Sample<f64>>::to_s24_4_le`: as `to_s24_3_le` with a zero
padding byte appended (most significant position of the 4 LE bytes). -/
def to_s24_4_le (v : ℚ) : List ℕ × Bool :=
  let c := clamp_int (-2147483648) 2147483647 (v * 2147483648)
  let u := u32ofI32 (i32cast c.1)
  ([byteAt u 1, byteAt u 2, byteAt u 3, 0], c.2)

/-- `<f64 as Sample<f64>>::to_s24_4_be`: zero padding byte first. -/
def to_s24_4_be (v : ℚ) : List ℕ × Bool :=
  let c := clamp_int (-2147483648) 2147483647 (v * 2147483648)
  let u := u32ofI32 (i32cast c.1)
  ([0, byteAt u 3, byteAt u 2, byteAt u 1], c.2)

/-- `<f64 as Sample<f64>>::to_f64_le`: clamp to `[-1, 1]`, serialise. -/
def to_f64_le (v : ℚ) : List ℕ × Bool :=
  let c := clamp_float v
  (leBytes8 (f64bits c.1), c.2)

/-- `<f64 as Sample<f64>>::to_f64_be`. -/
def to_f64_be (v : ℚ) : List ℕ × Bool :=
  let c := clamp_float v
  (beBytes8 (f64bits c.1), c.2)

/-- `<f64 as Sample<f64>>::to_f32_le`: narrow to `f32` (binary32
rounding), clamp to `[-1, 1]`, serialise. -/
def to_f32_le (v : ℚ) : List ℕ × Bool :=
  let c := clamp_float (roundF32q v)
  (leBytes4 (f32bits c.1), c.2)

/-- `<f64 as Sample<f64>>::to_f32_be`. -/
def to_f32_be (v : ℚ) : List ℕ × Bool :=
  let c := clamp_float (roundF32q v)
  (beBytes4 (f32bits c.1), c.2)

/-- `<f64 as Sample<f64>>::from_s32_le`: parse an `i32`, divide by
`MAX_I32` (`i32` to `f64` conversion is exact). -/
def from_s32_le (bs : List ℕ) : ℚ := (i32ofU32 (fromLeBytes bs) : ℚ) / 2147483648

/-- `<f64 as Sample<f64>>::from_s32_be`. -/
def from_s32_be (bs : List ℕ) : ℚ := (i32ofU32 (fromBeBytes bs) : ℚ) / 2147483648

/-- `<f64 as Sample<f64>>::from_s16_le`. -/
def from_s16_le (bs : List ℕ) : ℚ := (i16ofU16 (fromLeBytes bs) : ℚ) / 32768

/-- `<f64 as Sample<f64>>::from_s16_be`. -/
def from_s16_be (bs : List ℕ) : ℚ := (i16ofU16 (fromBeBytes bs) : ℚ) / 32768

/-- `<f64 as Sample<f64>>::from_s24_3_le`: pad a zero byte at the least
significant position, parse as `i32`, divide by `MAX_I32`. -/
def from_s24_3_le (bs : List ℕ) : ℚ :=
  (i32ofU32 (fromLeBytes (0 :: bs)) : ℚ) / 2147483648

/-- `<f64 as Sample<f64>>::from_s24_3_be`: pad a zero byte at the least
significant (last big-endian) position. -/
def from_s24_3_be (bs : List ℕ) : ℚ :=
  (i32ofU32 (fromBeBytes (bs ++ [0])) : ℚ) / 2147483648

/-- `<f64 as Sample<f64>>::from_s24_4_le`: use bytes 0..2, ignore byte 3
(`padded = [0, bytes[0], bytes[1], bytes[2]]`). -/
def from_s24_4_le (bs : List ℕ) : ℚ :=
  (i32ofU32 (fromLeBytes (0 :: bs.take 3)) : ℚ) / 2147483648

/-- `<f64 as Sample<f64>>::from_s24_4_be`: use bytes 1..3, ignore byte 0
(`padded = [bytes[1], bytes[2], bytes[3], 0]`). -/
def from_s24_4_be (bs : List ℕ) : ℚ :=
  (i32ofU32 (fromBeBytes (bs.drop 1 ++ [0])) : ℚ) / 2147483648

/-- `<f64 as Sample<f64>>::from_f32_le` (`f64::from(f32)` widens
exactly). -/
def from_f32_le (bs : List ℕ) : ℚ := parseF32bits (fromLeBytes bs)

/-- `<f64 as Sample<f64>>::from_f32_be`. -/
def from_f32_be (bs : List ℕ) : ℚ := parseF32bits (fromBeBytes bs)

/-- `<f64 as Sample<f64>>::from_f64_le`. -/
def from_f64_le (bs : List ℕ) : ℚ := parseF64bits (fromLeBytes bs)

/-- `<f64 as Sample<f64>>::from_f64_be`. -/
def from_f64_be (bs : List ℕ) : ℚ := parseF64bits (fromBeBytes bs)

end SampleF64

namespace SampleF32

/-! `impl Sample<f32> for f32` (`src/src/lib.rs:513`).  Same structure as
the `f64` implementation, with two differences visible in the model:

* the `clamp_int` upper bound for `i32` is `i32::MAX as f32`, which
  rounds UP to `2147483648.0` (an `f32` cannot represent `2^31 - 1`), so
  a scaled value of exactly `2^31` is NOT reported as clipped and the
  subsequent saturating `as i32` cast turns it into `i32::MAX`;
* the integer decoders `from_s32_*` / `from_s24_*` convert the parsed
  `i32` with `intvalue as f32`, which rounds to 24 significand bits
  (`roundIntF32`); `from_s16_*` uses the exact `f32::from(i16)`.

Multiplication by `MAX_I16 = 32768.0` / `MAX_I32 = 2147483648.0` is a
power-of-two scaling and therefore exact in `f32` for every finite
input that does not overflow; overflowing inputs (`|v| ≥ 2^97`) clip in
both the source and the model, with the same bytes and flag. -/

open RawSample

/-- `<f32 as Sample<f32>>::to_s16_le`. -/
def to_s16_le (v : ℚ) : List ℕ × Bool :=
  let c := clamp_int (-32768) 32767 (v * 32768)
  (i16leBytes (i16cast c.1), c.2)

/-- `<f32 as Sample<f32>>::to_s16_be`. -/
def to_s16_be (v : ℚ) : List ℕ × Bool :=
  let c := clamp_int (-32768) 32767 (v * 32768)
  (i16beBytes (i16cast c.1), c.2)

/-- `<f32 as Sample<f32>>::to_s32_le` (upper clamp bound
`i32::MAX as f32 = 2147483648`). -/
def to_s32_le (v : ℚ) : List ℕ × Bool :=
  let c := clamp_int (-2147483648) 2147483648 (v * 2147483648)
  (i32leBytes (i32cast c.1), c.2)

/-- `<f32 as Sample<f32>>::to_s32_be`. -/
def to_s32_be (v : ℚ) : List ℕ × Bool :=
  let c := clamp_int (-2147483648) 2147483648 (v * 2147483648)
  (i32beBytes (i32cast c.1), c.2)

/-- `<f32 as Sample<f32>>::to_s24_3_le`. -/
def to_s24_3_le (v : ℚ) : List ℕ × Bool :=
  let c := clamp_int (-2147483648) 2147483648 (v * 2147483648)
  let u := u32ofI32 (i32cast c.1)
  ([byteAt u 1, byteAt u 2, byteAt u 3], c.2)

/-- `<f32 as Sample<f32>>::to_s24_3_be`. -/
def to_s24_3_be (v : ℚ) : List ℕ × Bool :=
  let c := clamp_int (-2147483648) 2147483648 (v * 2147483648)
  let u := u32ofI32 (i32cast c.1)
  ([byteAt u 3, byteAt u 2, byteAt u 1], c.2)

/-- `<f32 as Sample<f32>>::to_s24_4_le`. -/
def to_s24_4_le (v : ℚ) : List ℕ × Bool :=
  let c := clamp_int (-2147483648) 2147483648 (v * 2147483648)
  let u := u32ofI32 (i32cast c.1)
  ([byteAt u 1, byteAt u 2, byteAt u 3, 0], c.2)

/-- `<f32 as Sample<f32>>::to_s24_4_be`. -/
def to_s24_4_be (v : ℚ) : List ℕ × Bool :=
  let c := clamp_int (-2147483648) 2147483648 (v * 2147483648)
  let u := u32ofI32 (i32cast c.1)
  ([0, byteAt u 3, byteAt u 2, byteAt u 1], c.2)

/-- `<f32 as Sample<f32>>::to_f64_le` (`f64::from(f32)` widens
exactly, then clamp and serialise). -/
def to_f64_le (v : ℚ) : List ℕ × Bool :=
  let c := clamp_float v
  (leBytes8 (f64bits c.1), c.2)

/-- `<f32 as Sample<f32>>::to_f64_be`. -/
def to_f64_be (v : ℚ) : List ℕ × Bool :=
  let c := clamp_float v
  (beBytes8 (f64bits c.1), c.2)

/-- `<f32 as Sample<f32>>::to_f32_le`. -/
def to_f32_le (v : ℚ) : List ℕ × Bool :=
  let c := clamp_float v
  (leBytes4 (f32bits c.1), c.2)

/-- `<f32 as Sample<f32>>::to_f32_be`. -/
def to_f32_be (v : ℚ) : List ℕ × Bool :=
  let c := clamp_float v
  (beBytes4 (f32bits c.1), c.2)

/-- `<f32 as Sample<f32>>::from_s32_le`: parse an `i32`, convert with
`intvalue as f32` (binary32 rounding), divide by `MAX_I32` (exact). -/
def from_s32_le (bs : List ℕ) : ℚ :=
  (roundIntF32 (i32ofU32 (fromLeBytes bs)) : ℚ) / 2147483648

/-- `<f32 as Sample<f32>>::from_s32_be`. -/
def from_s32_be (bs : List ℕ) : ℚ :=
  (roundIntF32 (i32ofU32 (fromBeBytes bs)) : ℚ) / 2147483648

/-- `<f32 as Sample<f32>>::from_s16_le` (`f32::from(i16)` is exact). -/
def from_s16_le (bs : List ℕ) : ℚ := (i16ofU16 (fromLeBytes bs) : ℚ) / 32768

/-- `<f32 as Sample<f32>>::from_s16_be`. -/
def from_s16_be (bs : List ℕ) : ℚ := (i16ofU16 (fromBeBytes bs) : ℚ) / 32768

/-- `<f32 as Sample<f32>>::from_s24_3_le`. -/
def from_s24_3_le (bs : List ℕ) : ℚ :=
  (roundIntF32 (i32ofU32 (fromLeBytes (0 :: bs))) : ℚ) / 2147483648

/-- `<f32 as Sample<f32>>::from_s24_3_be`. -/
def from_s24_3_be (bs : List ℕ) : ℚ :=
  (roundIntF32 (i32ofU32 (fromBeBytes (bs ++ [0]))) : ℚ) / 2147483648

/-- `<f32 as Sample<f32>>::from_s24_4_le`: use bytes 0..2, ignore
byte 3. -/
def from_s24_4_le (bs : List ℕ) : ℚ :=
  (roundIntF32 (i32ofU32 (fromLeBytes (0 :: bs.take 3))) : ℚ) / 2147483648

/-- `<f32 as Sample<f32>>::from_s24_4_be`: use bytes 1..3, ignore
byte 0. -/
def from_s24_4_be (bs : List ℕ) : ℚ :=
  (roundIntF32 (i32ofU32 (fromBeBytes (bs.drop 1 ++ [0]))) : ℚ) / 2147483648

/-- `<f32 as Sample<f32>>::from_f32_le`. -/
def from_f32_le (bs : List ℕ) : ℚ := parseF32bits (fromLeBytes bs)

/-- `<f32 as Sample<f32>>::from_f32_be`. -/
def from_f32_be (bs : List ℕ) : ℚ := parseF32bits (fromBeBytes bs)

/-- `<f32 as Sample<f32>>::from_f64_le`: parse the `f64`, then narrow
with `as f32` (binary32 rounding). -/
def from_f64_le (bs : List ℕ) : ℚ := roundF32q (parseF64bits (fromLeBytes bs))

/-- `<f32 as Sample<f32>>::from_f64_be`. -/
def from_f64_be (bs : List ℕ) : ℚ := roundF32q (parseF64bits (fromBeBytes bs))

end SampleF32

namespace Audioboiler

/-!
Model of the buffer layer (`src/audioboiler_traits/src/lib.rs`,
`src/audioboiler_buffers/src/lib.rs`, `src/audioboiler_buffers/src/direct.rs`).
Backing slices are `List T`; `buf.get_unchecked(i)` (raw indexing whose
out-of-bounds use is undefined behaviour, and is unreachable through the
checked accessors) is modelled by the total `l[i]?`.  The checked
accessors and bulk-transfer defaults live in the traits and are shared
by every wrapper; they are modelled both generically (structures
`AudioBufferM` / `ConverterM` abstracting over `get_unchecked` /
`read_unchecked`, exactly the default-method bodies) and on the concrete
wrapper types, which override some bulk methods with
`clone_from_slice`. -/

/-- `BufferSizeError` (`audioboiler_traits/src/lib.rs:80`): the source
carries a formatted description of the actual vs required size; the
model keeps the two numbers the message is formatted from. -/
structure BufferSizeError where
  actual : ℕ
  required : ℕ
deriving DecidableEq, Repr

/-- An `AudioBuffer` implementor abstracted over its required methods:
extents plus `get_unchecked` (modelled as a total function; the trait
default methods below never call it out of bounds). -/
structure AudioBufferM (T : Type) where
  channels : ℕ
  frames : ℕ
  getU : ℕ → ℕ → T

/-- Trait-default `AudioBuffer::get`
(`audioboiler_traits/src/lib.rs:359`): bounds-checked access. -/
def AudioBufferM.get {T : Type} (b : AudioBufferM T) (channel frame : ℕ) : Option T :=
  if channel ≥ b.channels ∨ frame ≥ b.frames then none
  else some (b.getU channel frame)

/-- Trait-default `AudioBufferMut::get_mut`
(`audioboiler_traits/src/lib.rs:454`): same guard as `get`, yielding the
mutable slot (modelled by its current value). -/
def AudioBufferM.getMut {T : Type} (b : AudioBufferM T) (channel frame : ℕ) : Option T :=
  if channel ≥ b.channels ∨ frame ≥ b.frames then none
  else some (b.getU channel frame)

/-- Trait-default `AudioBuffer::write_from_channel_to_slice`
(`audioboiler_traits/src/lib.rs:382`): copy up to
`min(frames - start, slice.len())` samples of one channel into `slice`,
returning the new slice contents and the count. -/
def AudioBufferM.writeFromChannelToSlice {T : Type} (b : AudioBufferM T)
    (channel start : ℕ) (slice : List T) : List T × ℕ :=
  if channel ≥ b.channels ∨ start ≥ b.frames then (slice, 0)
  else
    let ftw := if b.frames - start < slice.length then b.frames - start else slice.length
    ((List.range ftw).map (fun n => b.getU channel (start + n)) ++ slice.drop ftw, ftw)

/-- Trait-default `AudioBuffer::write_from_frame_to_slice`
(`audioboiler_traits/src/lib.rs:407`). -/
def AudioBufferM.writeFromFrameToSlice {T : Type} (b : AudioBufferM T)
    (frame start : ℕ) (slice : List T) : List T × ℕ :=
  if frame ≥ b.frames ∨ start ≥ b.channels then (slice, 0)
  else
    let ctw := if b.channels - start < slice.length then b.channels - start else slice.length
    ((List.range ctw).map (fun n => b.getU (start + n) frame) ++ slice.drop ctw, ctw)

/-- `ChannelSamples::new` plus a full traversal of the iterator
(`audioboiler_traits/src/iterators.rs:17`): `None` for an out-of-range
channel, otherwise the samples `get_unchecked(channel, 0 .. frames)` in
ascending frame order. -/
def AudioBufferM.iterChannel {T : Type} (b : AudioBufferM T) (channel : ℕ) :
    Option (List T) :=
  if channel ≥ b.channels then none
  else some ((List.range b.frames).map (fun f => b.getU channel f))

/-- `FrameSamples::new` plus a full traversal
(`audioboiler_traits/src/iterators.rs:62`). -/
def AudioBufferM.iterFrame {T : Type} (b : AudioBufferM T) (frame : ℕ) :
    Option (List T) :=
  if frame ≥ b.frames then none
  else some ((List.range b.channels).map (fun c => b.getU c frame))

/-- A `Converter` implementor abstracted over its required methods
(`audioboiler_traits/src/lib.rs:164`). -/
structure ConverterM (T : Type) where
  channels : ℕ
  frames : ℕ
  readU : ℕ → ℕ → T

/-- Trait-default `Converter::read`
(`audioboiler_traits/src/lib.rs:180`): bounds-checked read. -/
def ConverterM.read {T : Type} (b : ConverterM T) (channel frame : ℕ) : Option T :=
  if channel ≥ b.channels ∨ frame ≥ b.frames then none
  else some (b.readU channel frame)

/-- A `ConverterMut` implementor abstracted over its required methods
(`audioboiler_traits/src/lib.rs:246`): `write_unchecked` encodes a value
into the backing bytes and reports clipping; the model keeps the clip
flag and abstracts the byte mutation (the guard under test is in the
checked default `write`). -/
structure ConverterMutM (T : Type) where
  channels : ℕ
  frames : ℕ
  writeU : ℕ → ℕ → T → Bool

/-- Trait-default `ConverterMut::write`
(`audioboiler_traits/src/lib.rs:265`): bounds-checked write, `None` out
of range, otherwise `Some(clipped)`. -/
def ConverterMutM.write {T : Type} (b : ConverterMutM T) (channel frame : ℕ) (v : T) :
    Option Bool :=
  if channel ≥ b.channels ∨ frame ≥ b.frames then none
  else some (b.writeU channel frame v)

/-- `SequentialSlice` (`audioboiler_buffers/src/direct.rs:469`): flat
slice, all samples of a channel stored consecutively. -/
structure SequentialSlice (T : Type) where
  buf : List T
  frames : ℕ
  channels : ℕ

/-- `SequentialSlice::calc_index` (`direct.rs:476`). -/
def SequentialSlice.calc_index {T : Type} (b : SequentialSlice T)
    (channel frame : ℕ) : ℕ :=
  channel * b.frames + frame

/-- `SequentialSlice::new` (`direct.rs:487`), via `check_slice_length!`
(`audioboiler_buffers/src/lib.rs:84`): error iff the slice is shorter
than `frames * channels`. -/
def SequentialSlice.new {T : Type} (buf : List T) (channels frames : ℕ) :
    Except BufferSizeError (SequentialSlice T) :=
  if buf.length < frames * channels then
    .error ⟨buf.length, frames * channels⟩
  else .ok ⟨buf, frames, channels⟩

/-- `SequentialSlice`'s `get_unchecked` composed with the trait-default
bounds guard of `get`: the checked accessor as a caller sees it. -/
def SequentialSlice.get {T : Type} (b : SequentialSlice T) (channel frame : ℕ) :
    Option T :=
  if channel ≥ b.channels ∨ frame ≥ b.frames then none
  else b.buf[b.calc_index channel frame]?

/-- Override `SequentialSlice::write_from_channel_to_slice`
(`direct.rs:529`): bulk copy with `clone_from_slice`. -/
def SequentialSlice.writeFromChannelToSlice {T : Type} (b : SequentialSlice T)
    (channel start : ℕ) (slice : List T) : List T × ℕ :=
  if channel ≥ b.channels ∨ start ≥ b.frames then (slice, 0)
  else
    let ftw := if b.frames - start < slice.length then b.frames - start else slice.length
    let bufferStart := b.calc_index channel start
    (((b.buf.drop bufferStart).take ftw) ++ slice.drop ftw, ftw)

/-- `InterleavedSlice` (`direct.rs:330`): flat slice, all samples of a
frame stored consecutively. -/
structure InterleavedSlice (T : Type) where
  buf : List T
  frames : ℕ
  channels : ℕ

/-- `InterleavedSlice::calc_index` (`direct.rs:337`). -/
def InterleavedSlice.calc_index {T : Type} (b : InterleavedSlice T)
    (channel frame : ℕ) : ℕ :=
  frame * b.channels + channel

/-- `InterleavedSlice::new` (`direct.rs:348`). -/
def InterleavedSlice.new {T : Type} (buf : List T) (channels frames : ℕ) :
    Except BufferSizeError (InterleavedSlice T) :=
  if buf.length < frames * channels then
    .error ⟨buf.length, frames * channels⟩
  else .ok ⟨buf, frames, channels⟩

/-- `InterleavedSlice`'s checked `get`. -/
def InterleavedSlice.get {T : Type} (b : InterleavedSlice T) (channel frame : ℕ) :
    Option T :=
  if channel ≥ b.channels ∨ frame ≥ b.frames then none
  else b.buf[b.calc_index channel frame]?

/-- `SequentialSliceOfVecs` (`direct.rs:77`): a slice of per-channel
vectors. -/
structure SequentialSliceOfVecs (T : Type) where
  buf : List (List T)
  frames : ℕ
  channels : ℕ

/-- `SequentialSliceOfVecs::new` (`direct.rs:90`), via
`check_slice_and_vec_length!(.., sequential)`
(`audioboiler_buffers/src/lib.rs:95`): error if there are fewer than
`channels` outer vectors, then error at the first vector — the loop
runs over ALL of them, including any beyond `channels` — shorter than
`frames`. -/
def SequentialSliceOfVecs.new {T : Type} (buf : List (List T)) (channels frames : ℕ) :
    Except BufferSizeError (SequentialSliceOfVecs T) :=
  if buf.length < channels then
    .error ⟨buf.length, channels⟩
  else
    match buf.find? (fun chan => chan.length < frames) with
    | some chan => .error ⟨chan.length, frames⟩
    | none => .ok ⟨buf, frames, channels⟩

/-- `SequentialSliceOfVecs`'s checked `get`
(`get_unchecked` is `buf[channel][frame]`, `direct.rs:125`). -/
def SequentialSliceOfVecs.get {T : Type} (b : SequentialSliceOfVecs T)
    (channel frame : ℕ) : Option T :=
  if channel ≥ b.channels ∨ frame ≥ b.frames then none
  else (b.buf[channel]?.bind (fun chan => chan[frame]?))

/-- `InterleavedSliceOfVecs` (`direct.rs:201`): a slice of per-frame
vectors. -/
structure InterleavedSliceOfVecs (T : Type) where
  buf : List (List T)
  frames : ℕ
  channels : ℕ

/-- `InterleavedSliceOfVecs::new` (`direct.rs:214`), via
`check_slice_and_vec_length!(.., interleaved)`: error if there are
fewer than `frames` outer vectors, then error at the first vector
(again ALL are scanned) shorter than `channels`. -/
def InterleavedSliceOfVecs.new {T : Type} (buf : List (List T)) (channels frames : ℕ) :
    Except BufferSizeError (InterleavedSliceOfVecs T) :=
  if buf.length < frames then
    .error ⟨buf.length, frames⟩
  else
    match buf.find? (fun frame => frame.length < channels) with
    | some frame => .error ⟨frame.length, channels⟩
    | none => .ok ⟨buf, frames, channels⟩

/-- `InterleavedSliceOfVecs`'s checked `get`
(`get_unchecked` is `buf[frame][channel]`, `direct.rs:249`). -/
def InterleavedSliceOfVecs.get {T : Type} (b : InterleavedSliceOfVecs T)
    (channel frame : ℕ) : Option T :=
  if channel ≥ b.channels ∨ frame ≥ b.frames then none
  else (b.buf[frame]?.bind (fun fr => fr[channel]?))

/-- One fold step of `channel_peak_to_peak` / `frame_peak_to_peak`
(`audioboiler_traits/src/stats.rs:42`): update the `[min, max]`
accumulator; note the `else if` — a sample below the running minimum is
not compared against the maximum. -/
def ptpStep {T : Type} [LT T] [DecidableRel (· < · : T → T → Prop)]
    (acc : T × T) (x : T) : T × T :=
  if x < acc.1 then (x, acc.2) else if acc.2 < x then (acc.1, x) else acc

/-- The fold of `channel_peak_to_peak` (`stats.rs:40`), seeded from
`[T::zero(), T::zero()]` rather than the first sample. -/
def ptpFold {T : Type} [LT T] [DecidableRel (· < · : T → T → Prop)] [Zero T]
    (l : List T) : T × T :=
  l.foldl ptpStep (0, 0)

/-- Trait-default `AudioBufferStats::channel_peak_to_peak`
(`stats.rs:39`): `None` for an out-of-range channel (propagated from
`iter_channel`), else `max - min` of the zero-seeded fold. -/
def AudioBufferM.channelPeakToPeak {T : Type} [LT T]
    [DecidableRel (· < · : T → T → Prop)] [Zero T] [Sub T]
    (b : AudioBufferM T) (channel : ℕ) : Option T :=
  (b.iterChannel channel).map (fun l => (ptpFold l).2 - (ptpFold l).1)

/-- Trait-default `AudioBufferStats::frame_peak_to_peak`
(`stats.rs:55`). -/
def AudioBufferM.framePeakToPeak {T : Type} [LT T]
    [DecidableRel (· < · : T → T → Prop)] [Zero T] [Sub T]
    (b : AudioBufferM T) (frame : ℕ) : Option T :=
  (b.iterFrame frame).map (fun l => (ptpFold l).2 - (ptpFold l).1)

end Audioboiler


namespace SpecC3

open RawSample

/-- Modelled from the spec's words for claim C3 ("multiplies the value
by the 24-bit maximum-magnitude constant `2^23`, clamps the scaled
value to the representable signed integer range, truncates/casts to the
integer width, and stores the low-order 3 bytes of the 32-bit scaled
integer"): scale by `2^23`, clamp to the signed 24-bit range, truncate
toward zero, store the low-order 3 bytes of the (sign-extended) 32-bit
integer.  This is NOT what the source does — compare
`SampleF64.to_s24_3_le`, which scales by `2^31` and stores the
high-order 3 bytes — and the two disagree, see the C3 counterexample. -/
def to_s24_3_le (v : ℚ) : List ℕ × Bool :=
  let c := clamp_int (-8388608) 8388607 (v * 8388608)
  let k := max (-8388608) (min 8388607 (rustTrunc c.1))
  let u := u32ofI32 k
  ([byteAt u 0, byteAt u 1, byteAt u 2], c.2)

end SpecC3

open RawSample Audioboiler

/-- C5: for every buffer or converter wrapper and every coordinate pair
with `channel ≥ channels()` or `frame ≥ frames()` (including the
one-past-the-end values), the checked accessors `get` / `get_mut` /
`read` / `write` return `None` — they never panic and never wrap around
to another sample.  Covered: the trait-default checked accessors (shared
by every implementor) and the concrete `get` of all four direct
wrappers. -/
theorem c5_bounds_checked_accessors_absent {T : Type} :
    (∀ (b : AudioBufferM T) (channel frame : ℕ),
      b.channels ≤ channel ∨ b.frames ≤ frame →
        b.get channel frame = none ∧ b.getMut channel frame = none) ∧
    (∀ (c : ConverterM T) (channel frame : ℕ),
      c.channels ≤ channel ∨ c.frames ≤ frame → c.read channel frame = none) ∧
    (∀ (c : ConverterMutM T) (channel frame : ℕ) (v : T),
      c.channels ≤ channel ∨ c.frames ≤ frame → c.write channel frame v = none) ∧
    (∀ (s : SequentialSlice T) (channel frame : ℕ),
      s.channels ≤ channel ∨ s.frames ≤ frame → s.get channel frame = none) ∧
    (∀ (i : InterleavedSlice T) (channel frame : ℕ),
      i.channels ≤ channel ∨ i.frames ≤ frame → i.get channel frame = none) ∧
    (∀ (sv : SequentialSliceOfVecs T) (channel frame : ℕ),
      sv.channels ≤ channel ∨ sv.frames ≤ frame → sv.get channel frame = none) ∧
    (∀ (iv : InterleavedSliceOfVecs T) (channel frame : ℕ),
      iv.channels ≤ channel ∨ iv.frames ≤ frame → iv.get channel frame = none) := by
  refine ⟨?_, ?_, ?_, ?_, ?_, ?_, ?_⟩
  · exact fun b channel frame h => ⟨if_pos h, if_pos h⟩
  · exact fun c channel frame h => if_pos h
  · exact fun c channel frame v h => if_pos h
  · exact fun s channel frame h => if_pos h
  · exact fun i channel frame h => if_pos h
  · exact fun sv channel frame h => if_pos h
  · exact fun iv channel frame h => if_pos h

/-- C5 witness: a concrete 2-channel, 3-frame instance of each wrapper,
probed at the one-past-the-end coordinates `(2, 0)` and `(0, 3)`. -/
theorem c5_bounds_checked_accessors_absent_witness :
    ((AudioBufferM.mk 2 3 (fun c f => (c * 3 + f : ℤ))).get 2 0 = none ∧
      (AudioBufferM.mk 2 3 (fun c f => (c * 3 + f : ℤ))).getMut 2 0 = none) ∧
    (ConverterM.mk 2 3 (fun c f => (c * 3 + f : ℤ))).read 0 3 = none ∧
    (ConverterMutM.mk 2 3 (fun _ _ _ => false)).write 0 3 (7 : ℤ) = none ∧
    (SequentialSlice.mk [0, 1, 2, 3, 4, 5] 3 2).get 2 0 = (none : Option ℤ) ∧
    (InterleavedSlice.mk [0, 3, 1, 4, 2, 5] 3 2).get 0 3 = (none : Option ℤ) ∧
    (SequentialSliceOfVecs.mk [[0, 1, 2], [3, 4, 5]] 3 2).get 2 0 = (none : Option ℤ) ∧
    (InterleavedSliceOfVecs.mk [[0, 3], [1, 4], [2, 5]] 3 2).get 0 3 = (none : Option ℤ) := by
  have h := @c5_bounds_checked_accessors_absent ℤ
  exact ⟨h.1 _ 2 0 (Or.inl (by decide)),
    h.2.1 _ 0 3 (Or.inr (by decide)),
    h.2.2.1 _ 0 3 (7 : ℤ) (Or.inr (by decide)),
    h.2.2.2.1 _ 2 0 (Or.inl (by decide)),
    h.2.2.2.2.1 _ 0 3 (Or.inr (by decide)),
    h.2.2.2.2.2.1 _ 2 0 (Or.inl (by decide)),
    h.2.2.2.2.2.2 _ 0 3 (Or.inr (by decide))⟩

/-- C10: decoding the 24-bit-in-4-bytes formats ignores the padding byte
entirely: `from_s24_4_le` gives the same value for every content of
`bytes[3]`, and `from_s24_4_be` for every content of `bytes[0]`, for
both the `f64` and the `f32` sample type; the result depends only on the
three data bytes. -/
theorem c10_s24_4_padding_byte_ignored (b0 b1 b2 b3 b3' : ℕ) :
    SampleF64.from_s24_4_le [b0, b1, b2, b3] = SampleF64.from_s24_4_le [b0, b1, b2, b3'] ∧
    SampleF64.from_s24_4_be [b3, b0, b1, b2] = SampleF64.from_s24_4_be [b3', b0, b1, b2] ∧
    SampleF32.from_s24_4_le [b0, b1, b2, b3] = SampleF32.from_s24_4_le [b0, b1, b2, b3'] ∧
    SampleF32.from_s24_4_be [b3, b0, b1, b2] = SampleF32.from_s24_4_be [b3', b0, b1, b2] :=
  ⟨rfl, rfl, rfl, rfl⟩

/-- C7: any two wrapper types with the same extents whose backing
storages hold the same logical sample value at every `(channel, frame)`
position under their respective layout formulas (sequential:
`channel * frames + frame`; interleaved: `frame * channels + channel`;
vec-of-vecs: `buf[channel][frame]` resp. `buf[frame][channel]`) return
the identical value from `get(c, f)` at every in-range coordinate
pair. -/
theorem c7_layout_equivalence {T : Type} (ch fr : ℕ) (data : ℕ → ℕ → T)
    (seqBuf intBuf : List T) (seqVecs intVecs : List (List T))
    (hseq : ∀ c < ch, ∀ f < fr, seqBuf[c * fr + f]? = some (data c f))
    (hint : ∀ c < ch, ∀ f < fr, intBuf[f * ch + c]? = some (data c f))
    (hsv : ∀ c < ch, ∀ f < fr, (seqVecs[c]?.bind (fun chan => chan[f]?)) = some (data c f))
    (hiv : ∀ c < ch, ∀ f < fr, (intVecs[f]?.bind (fun frm => frm[c]?)) = some (data c f)) :
    ∀ c < ch, ∀ f < fr,
      (SequentialSlice.mk seqBuf fr ch).get c f = some (data c f) ∧
      (InterleavedSlice.mk intBuf fr ch).get c f = some (data c f) ∧
      (SequentialSliceOfVecs.mk seqVecs fr ch).get c f = some (data c f) ∧
      (InterleavedSliceOfVecs.mk intVecs fr ch).get c f = some (data c f) := by
  intro c hc f hf
  have hguard : ¬(ch ≤ c ∨ fr ≤ f) := by omega
  refine ⟨?_, ?_, ?_, ?_⟩
  · show (if ch ≤ c ∨ fr ≤ f then none else seqBuf[c * fr + f]?) = some (data c f)
    rw [if_neg hguard]; exact hseq c hc f hf
  · show (if ch ≤ c ∨ fr ≤ f then none else intBuf[f * ch + c]?) = some (data c f)
    rw [if_neg hguard]; exact hint c hc f hf
  · show (if ch ≤ c ∨ fr ≤ f then none else seqVecs[c]?.bind (fun chan => chan[f]?))
        = some (data c f)
    rw [if_neg hguard]; exact hsv c hc f hf
  · show (if ch ≤ c ∨ fr ≤ f then none else intVecs[f]?.bind (fun frm => frm[c]?))
        = some (data c f)
    rw [if_neg hguard]; exact hiv c hc f hf

/-- C7 witness: the 2-channel, 3-frame example of the repository's own
tests (`direct.rs:721`), stored in all four layouts, read at
`(channel, frame) = (1, 2)`: all four `get`s agree. -/
theorem c7_layout_equivalence_witness :
    (SequentialSlice.mk [1, 2, 3, 4, 5, 6] 3 2).get 1 2 = some ((1 * 3 + 2 : ℤ) + 1) ∧
    (InterleavedSlice.mk [1, 4, 2, 5, 3, 6] 3 2).get 1 2 = some ((1 * 3 + 2 : ℤ) + 1) ∧
    (SequentialSliceOfVecs.mk [[1, 2, 3], [4, 5, 6]] 3 2).get 1 2
      = some ((1 * 3 + 2 : ℤ) + 1) ∧
    (InterleavedSliceOfVecs.mk [[1, 4], [2, 5], [3, 6]] 3 2).get 1 2
      = some ((1 * 3 + 2 : ℤ) + 1) :=
  c7_layout_equivalence 2 3 (fun c f => (c * 3 + f : ℤ) + 1)
    [1, 2, 3, 4, 5, 6] [1, 4, 2, 5, 3, 6] [[1, 2, 3], [4, 5, 6]] [[1, 4], [2, 5], [3, 6]]
    (by decide) (by decide) (by decide) (by decide) 1 (by decide) 2 (by decide)

/-- C8 counterexample: the claim asserts construction succeeds whenever
the first `channels` outer entries are long enough "regardless of any
extra storage", but `check_slice_and_vec_length!` loops over ALL outer
entries: wrapping `[[0], []]` as 1 channel × 1 frame fails — the first
(and only declared) channel `[0]` is long enough, yet the extra empty
vector beyond the declared channel count is rejected. -/
theorem c8_excess_entry_counterexample :
    SequentialSliceOfVecs.new [[(0 : ℤ)], []] 1 1 = .error ⟨0, 1⟩ ∧
    (∀ chan ∈ [[(0 : ℤ)], []].take 1, 1 ≤ chan.length) := by
  constructor
  · rfl
  · decide

/-- C8 amended: flat-slice wrappers fail with a size-mismatch error
exactly when the slice is shorter than `channels * frames` (excess flat
capacity is permitted); vec-of-vecs wrappers fail exactly when there are
fewer than `channels` (resp. `frames`) outer entries or ANY outer
entry — including entries beyond the declared extent — is shorter than
the inner extent.  Excess outer entries are permitted only when they
are themselves long enough. -/
theorem c8_construction_size_check_amended {T : Type} (buf : List T)
    (vbuf : List (List T)) (channels frames : ℕ) :
    ((SequentialSlice.new buf channels frames).isOk = true ↔
      frames * channels ≤ buf.length) ∧
    ((InterleavedSlice.new buf channels frames).isOk = true ↔
      frames * channels ≤ buf.length) ∧
    ((SequentialSliceOfVecs.new vbuf channels frames).isOk = true ↔
      (channels ≤ vbuf.length ∧ ∀ chan ∈ vbuf, frames ≤ chan.length)) ∧
    ((InterleavedSliceOfVecs.new vbuf channels frames).isOk = true ↔
      (frames ≤ vbuf.length ∧ ∀ frm ∈ vbuf, channels ≤ frm.length)) := by
  refine ⟨?_, ?_, ?_, ?_⟩
  · by_cases h : buf.length < frames * channels
    all_goals simp [SequentialSlice.new, h, Except.isOk, Except.toBool]
    all_goals omega
  · by_cases h : buf.length < frames * channels
    all_goals simp [InterleavedSlice.new, h, Except.isOk, Except.toBool]
    all_goals omega
  · by_cases h : vbuf.length < channels
    · simp [SequentialSliceOfVecs.new, h, Except.isOk, Except.toBool]
    · rcases hfind : vbuf.find? (fun chan => chan.length < frames) with _ | chan
      · have hall : ∀ x ∈ vbuf, ¬(x.length < frames) := by
          intro x hx
          simpa using List.find?_eq_none.mp hfind x hx
        simp only [SequentialSliceOfVecs.new, if_neg h, hfind, Except.isOk, Except.toBool]
        simp only [true_iff, iff_true]
        exact ⟨by omega, fun chan hc => by have := hall chan hc; omega⟩
      · have hmem := List.mem_of_find?_eq_some hfind
        have hlen := List.find?_some hfind
        simp only [decide_eq_true_eq] at hlen
        simp only [SequentialSliceOfVecs.new, if_neg h, hfind, Except.isOk, Except.toBool]
        simp only [false_iff, iff_false, Bool.false_eq_true, false_iff]
        rintro ⟨_, hall2⟩
        have := hall2 chan hmem
        omega
  · by_cases h : vbuf.length < frames
    · simp [InterleavedSliceOfVecs.new, h, Except.isOk, Except.toBool]
    · rcases hfind : vbuf.find? (fun frm => frm.length < channels) with _ | frm
      · have hall : ∀ x ∈ vbuf, ¬(x.length < channels) := by
          intro x hx
          simpa using List.find?_eq_none.mp hfind x hx
        simp only [InterleavedSliceOfVecs.new, if_neg h, hfind, Except.isOk, Except.toBool]
        simp only [true_iff, iff_true]
        exact ⟨by omega, fun frm hc => by have := hall frm hc; omega⟩
      · have hmem := List.mem_of_find?_eq_some hfind
        have hlen := List.find?_some hfind
        simp only [decide_eq_true_eq] at hlen
        simp only [InterleavedSliceOfVecs.new, if_neg h, hfind, Except.isOk, Except.toBool]
        simp only [false_iff, iff_false, Bool.false_eq_true, false_iff]
        rintro ⟨_, hall2⟩
        have := hall2 frm hmem
        omega

/-- C8 witness: a flat slice with one slot of excess capacity wraps
fine as 2 × 3, and a vec-of-vecs with an extra sufficiently long vector
wraps fine as 1 channel × 2 frames. -/
theorem c8_construction_size_check_amended_witness :
    ((SequentialSlice.new [0, 1, 2, 3, 4, 5, 6] 2 3).isOk = true ↔ 3 * 2 ≤ 7) ∧
    ((SequentialSliceOfVecs.new [[(0 : ℤ), 1], [2, 3, 4]] 1 2).isOk = true ↔
      (1 ≤ 2 ∧ ∀ chan ∈ [[(0 : ℤ), 1], [2, 3, 4]], 2 ≤ chan.length)) := by
  refine ⟨(c8_construction_size_check_amended [0, 1, 2, 3, 4, 5, 6]
    [[(0 : ℤ), 1], [2, 3, 4]] 2 3).1, ?_⟩
  have h := (c8_construction_size_check_amended ([] : List ℤ)
    [[(0 : ℤ), 1], [2, 3, 4]] 1 2).2.2.1
  simpa using h

/-- Under a linear order, one `ptpStep` is exactly the pointwise
`(min, max)` update, provided the accumulator is ordered. -/
theorem ptpStep_eq_min_max {T : Type} [LinearOrder T] (acc : T × T) (x : T)
    (h : acc.1 ≤ acc.2) : ptpStep acc x = (min acc.1 x, max acc.2 x) := by
  unfold ptpStep
  by_cases hx : x < acc.1
  · rw [if_pos hx, min_eq_right hx.le, max_eq_left (hx.le.trans h)]
  · rw [if_neg hx]
    push_neg at hx
    by_cases hx2 : acc.2 < x
    · rw [if_pos hx2, min_eq_left hx, max_eq_right hx2.le]
    · push_neg at hx2
      rw [if_neg (not_lt.mpr hx2), min_eq_left hx, max_eq_left hx2]

/-- The zero-seeded `[min, max]` fold of the statistics layer computes
the running minimum and maximum (each seeded with the accumulator). -/
theorem ptpFold_go {T : Type} [LinearOrder T] (l : List T) :
    ∀ acc : T × T, acc.1 ≤ acc.2 →
      l.foldl ptpStep acc = (l.foldl min acc.1, l.foldl max acc.2) := by
  induction l with
  | nil => intro acc _; rfl
  | cons x l ih =>
    intro acc h
    rw [List.foldl_cons, ptpStep_eq_min_max acc x h, List.foldl_cons, List.foldl_cons]
    exact ih (min acc.1 x, max acc.2 x)
      (le_trans (min_le_left _ _) (h.trans (le_max_left _ _)))

/-- A `max` fold dominates its seed and every element, and returns the
seed or an element. -/
theorem foldl_max_spec {T : Type} [LinearOrder T] (l : List T) :
    ∀ a : T, (l.foldl max a = a ∨ l.foldl max a ∈ l) ∧ a ≤ l.foldl max a ∧
      ∀ x ∈ l, x ≤ l.foldl max a := by
  induction l with
  | nil => intro a; exact ⟨Or.inl rfl, le_refl a, by simp⟩
  | cons y l ih =>
    intro a
    rw [List.foldl_cons]
    obtain ⟨hsrc, hle, hmem⟩ := ih (max a y)
    refine ⟨?_, le_trans (le_max_left a y) hle, ?_⟩
    · rcases hsrc with heq | hin
      · rcases max_choice a y with hc | hc
        · rw [heq, hc]; exact Or.inl rfl
        · rw [heq, hc]; exact Or.inr (List.mem_cons_self y l)
      · exact Or.inr (List.mem_cons_of_mem y hin)
    · intro x hx
      rcases List.mem_cons.mp hx with rfl | hin
      · exact le_trans (le_max_right a x) hle
      · exact hmem x hin

/-- A `min` fold is below its seed and every element, and returns the
seed or an element. -/
theorem foldl_min_spec {T : Type} [LinearOrder T] (l : List T) :
    ∀ a : T, (l.foldl min a = a ∨ l.foldl min a ∈ l) ∧ l.foldl min a ≤ a ∧
      ∀ x ∈ l, l.foldl min a ≤ x := by
  induction l with
  | nil => intro a; exact ⟨Or.inl rfl, le_refl a, by simp⟩
  | cons y l ih =>
    intro a
    rw [List.foldl_cons]
    obtain ⟨hsrc, hle, hmem⟩ := ih (min a y)
    refine ⟨?_, le_trans hle (min_le_left a y), ?_⟩
    · rcases hsrc with heq | hin
      · rcases min_choice a y with hc | hc
        · rw [heq, hc]; exact Or.inl rfl
        · rw [heq, hc]; exact Or.inr (List.mem_cons_self y l)
      · exact Or.inr (List.mem_cons_of_mem y hin)
    · intro x hx
      rcases List.mem_cons.mp hx with rfl | hin
      · exact le_trans hle (min_le_right a x)
      · exact hmem x hin

/-- C9: `channel_peak_to_peak(channel)` (and symmetrically
`frame_peak_to_peak`) returns absent exactly for an out-of-range index,
and otherwise `max - min` where the accumulators are seeded from the
numeric zero rather than the first sample: the result is
`max(0, maximum sample) - min(0, minimum sample)` in the sample's own
numeric type — witnessed by `m ≤ 0 ≤ M` bracketing every sample, each
of `m`, `M` being zero or an attained sample. -/
theorem c9_peak_to_peak_zero_seeded {T : Type} [LinearOrder T] [Zero T] [Sub T]
    (b : AudioBufferM T) (channel frame : ℕ) :
    (b.channels ≤ channel → b.channelPeakToPeak channel = none) ∧
    (channel < b.channels →
      ∃ m M, m ≤ 0 ∧ 0 ≤ M ∧
        (m = 0 ∨ m ∈ (List.range b.frames).map (b.getU channel)) ∧
        (M = 0 ∨ M ∈ (List.range b.frames).map (b.getU channel)) ∧
        (∀ x ∈ (List.range b.frames).map (b.getU channel), m ≤ x ∧ x ≤ M) ∧
        b.channelPeakToPeak channel = some (M - m)) ∧
    (b.frames ≤ frame → b.framePeakToPeak frame = none) ∧
    (frame < b.frames →
      ∃ m M, m ≤ 0 ∧ 0 ≤ M ∧
        (m = 0 ∨ m ∈ (List.range b.channels).map (fun c => b.getU c frame)) ∧
        (M = 0 ∨ M ∈ (List.range b.channels).map (fun c => b.getU c frame)) ∧
        (∀ x ∈ (List.range b.channels).map (fun c => b.getU c frame), m ≤ x ∧ x ≤ M) ∧
        b.framePeakToPeak frame = some (M - m)) := by
  have main : ∀ l : List T,
      ∃ m M, m ≤ 0 ∧ 0 ≤ M ∧ (m = 0 ∨ m ∈ l) ∧ (M = 0 ∨ M ∈ l) ∧
        (∀ x ∈ l, m ≤ x ∧ x ≤ M) ∧ (ptpFold l).2 - (ptpFold l).1 = M - m := by
    intro l
    refine ⟨l.foldl min 0, l.foldl max 0, (foldl_min_spec l 0).2.1,
      (foldl_max_spec l 0).2.1, (foldl_min_spec l 0).1, (foldl_max_spec l 0).1,
      fun x hx => ⟨(foldl_min_spec l 0).2.2 x hx, (foldl_max_spec l 0).2.2 x hx⟩, ?_⟩
    have hfold := ptpFold_go l ((0 : T), (0 : T)) (le_refl 0)
    unfold ptpFold
    rw [hfold]
  refine ⟨?_, ?_, ?_, ?_⟩
  · intro h
    simp [AudioBufferM.channelPeakToPeak, AudioBufferM.iterChannel, h]
  · intro h
    obtain ⟨m, M, h1, h2, h3, h4, h5, h6⟩ := main ((List.range b.frames).map (b.getU channel))
    refine ⟨m, M, h1, h2, h3, h4, h5, ?_⟩
    simp only [AudioBufferM.channelPeakToPeak, AudioBufferM.iterChannel,
      if_neg (by omega : ¬channel ≥ b.channels)]
    exact congrArg some h6
  · intro h
    simp [AudioBufferM.framePeakToPeak, AudioBufferM.iterFrame, h]
  · intro h
    obtain ⟨m, M, h1, h2, h3, h4, h5, h6⟩ := main
      ((List.range b.channels).map (fun c => b.getU c frame))
    refine ⟨m, M, h1, h2, h3, h4, h5, ?_⟩
    simp only [AudioBufferM.framePeakToPeak, AudioBufferM.iterFrame,
      if_neg (by omega : ¬frame ≥ b.frames)]
    exact congrArg some h6

/-- C9 witness: the spec's literal example — 2 channels × 4 frames,
channel 0 holding `[1, -1, 1, -1]` — has peak-to-peak `some 2`, and the
theorem's bracketing instance holds there. -/
theorem c9_peak_to_peak_zero_seeded_witness :
    (0 < 2 →
      ∃ m M, m ≤ 0 ∧ 0 ≤ M ∧
        (m = 0 ∨ m ∈ (List.range 4).map
          ((AudioBufferM.mk 2 4 (fun c f => if c = 0 then (if f % 2 = 0 then (1 : ℤ) else -1)
            else 0)).getU 0)) ∧
        (M = 0 ∨ M ∈ (List.range 4).map
          ((AudioBufferM.mk 2 4 (fun c f => if c = 0 then (if f % 2 = 0 then (1 : ℤ) else -1)
            else 0)).getU 0)) ∧
        (∀ x ∈ (List.range 4).map
          ((AudioBufferM.mk 2 4 (fun c f => if c = 0 then (if f % 2 = 0 then (1 : ℤ) else -1)
            else 0)).getU 0), m ≤ x ∧ x ≤ M) ∧
        (AudioBufferM.mk 2 4 (fun c f => if c = 0 then (if f % 2 = 0 then (1 : ℤ) else -1)
          else 0)).channelPeakToPeak 0 = some (M - m)) ∧
    (AudioBufferM.mk 2 4 (fun c f => if c = 0 then (if f % 2 = 0 then (1 : ℤ) else -1)
      else 0)).channelPeakToPeak 0 = some 2 :=
  ⟨(c9_peak_to_peak_zero_seeded
      (AudioBufferM.mk 2 4 (fun c f => if c = 0 then (if f % 2 = 0 then (1 : ℤ) else -1) else 0))
      0 0).2.1, by decide⟩

/-- Overwriting a prefix of `slice` leaves its length and the tail
beyond the prefix unchanged. -/
theorem overwrite_tail_spec {T : Type} (vals slice : List T)
    (h : vals.length ≤ slice.length) :
    (vals ++ slice.drop vals.length).length = slice.length ∧
    (∀ i, vals.length ≤ i → (vals ++ slice.drop vals.length)[i]? = slice[i]?) := by
  constructor
  · simp only [List.length_append, List.length_drop]; omega
  · intro i hi
    rw [List.getElem?_append_right hi, List.getElem?_drop]
    congr 1; omega

/-- C6: bulk channel extraction: out-of-range `channel` or
`start ≥ frames` writes nothing and returns 0; otherwise exactly
`min(frames - start, slice.len())` elements are copied in ascending
frame order starting at frame `start`, that count is returned, and the
slice's tail beyond the count is untouched.  Symmetrically for frame
extraction.  Proved for the trait-default implementations (channel and
frame direction) and for `SequentialSlice`'s `clone_from_slice`
override. -/
theorem c6_bulk_extraction_truncation {T : Type} (b : AudioBufferM T)
    (s : SequentialSlice T) (channel frame start : ℕ) (slice : List T) :
    (b.channels ≤ channel ∨ b.frames ≤ start →
      b.writeFromChannelToSlice channel start slice = (slice, 0)) ∧
    (channel < b.channels → start < b.frames →
      (b.writeFromChannelToSlice channel start slice).2
          = min (b.frames - start) slice.length ∧
      (b.writeFromChannelToSlice channel start slice).1.length = slice.length ∧
      (∀ i < min (b.frames - start) slice.length,
        (b.writeFromChannelToSlice channel start slice).1[i]?
          = some (b.getU channel (start + i))) ∧
      (∀ i, min (b.frames - start) slice.length ≤ i →
        (b.writeFromChannelToSlice channel start slice).1[i]? = slice[i]?)) ∧
    (b.frames ≤ frame ∨ b.channels ≤ start →
      b.writeFromFrameToSlice frame start slice = (slice, 0)) ∧
    (frame < b.frames → start < b.channels →
      (b.writeFromFrameToSlice frame start slice).2
          = min (b.channels - start) slice.length ∧
      (b.writeFromFrameToSlice frame start slice).1.length = slice.length ∧
      (∀ i < min (b.channels - start) slice.length,
        (b.writeFromFrameToSlice frame start slice).1[i]?
          = some (b.getU (start + i) frame)) ∧
      (∀ i, min (b.channels - start) slice.length ≤ i →
        (b.writeFromFrameToSlice frame start slice).1[i]? = slice[i]?)) ∧
    (s.channels ≤ channel ∨ s.frames ≤ start →
      s.writeFromChannelToSlice channel start slice = (slice, 0)) ∧
    (channel < s.channels → start < s.frames → s.channels * s.frames ≤ s.buf.length →
      (s.writeFromChannelToSlice channel start slice).2
          = min (s.frames - start) slice.length ∧
      (s.writeFromChannelToSlice channel start slice).1.length = slice.length ∧
      (∀ i < min (s.frames - start) slice.length,
        (s.writeFromChannelToSlice channel start slice).1[i]?
          = s.buf[s.calc_index channel (start + i)]?) ∧
      (∀ i, min (s.frames - start) slice.length ≤ i →
        (s.writeFromChannelToSlice channel start slice).1[i]? = slice[i]?)) := by
  have hmin : ∀ a c : ℕ, (if a < c then a else c) = min a c := by
    intro a c; by_cases hc : a < c <;> simp only [if_pos, if_neg, hc, ite_true, ite_false] <;> omega
  refine ⟨?_, ?_, ?_, ?_, ?_, ?_⟩
  · intro h
    simp only [AudioBufferM.writeFromChannelToSlice, if_pos h]
  · intro h1 h2
    have hguard : ¬(channel ≥ b.channels ∨ start ≥ b.frames) := by omega
    simp only [AudioBufferM.writeFromChannelToSlice, if_neg hguard, hmin]
    set n := min (b.frames - start) slice.length with hn
    have hlen : ((List.range n).map (fun k => b.getU channel (start + k))).length = n := by
      simp
    have hle : n ≤ slice.length := by omega
    obtain ⟨htail1, htail2⟩ := overwrite_tail_spec
      ((List.range n).map (fun k => b.getU channel (start + k))) slice (by rw [hlen]; exact hle)
    refine ⟨by trivial, ?_, ?_, ?_⟩
    · rw [hlen] at htail1; exact htail1
    · intro i hi
      rw [List.getElem?_append]
      rw [hlen, if_pos hi, List.getElem?_map, List.getElem?_range hi, Option.map_some']
    · intro i hi
      rw [hlen] at htail2; exact htail2 i hi
  · intro h
    simp only [AudioBufferM.writeFromFrameToSlice, if_pos h]
  · intro h1 h2
    have hguard : ¬(frame ≥ b.frames ∨ start ≥ b.channels) := by omega
    simp only [AudioBufferM.writeFromFrameToSlice, if_neg hguard, hmin]
    set n := min (b.channels - start) slice.length with hn
    have hlen : ((List.range n).map (fun k => b.getU (start + k) frame)).length = n := by
      simp
    have hle : n ≤ slice.length := by omega
    obtain ⟨htail1, htail2⟩ := overwrite_tail_spec
      ((List.range n).map (fun k => b.getU (start + k) frame)) slice (by rw [hlen]; exact hle)
    refine ⟨by trivial, ?_, ?_, ?_⟩
    · rw [hlen] at htail1; exact htail1
    · intro i hi
      rw [List.getElem?_append]
      rw [hlen, if_pos hi, List.getElem?_map, List.getElem?_range hi, Option.map_some']
    · intro i hi
      rw [hlen] at htail2; exact htail2 i hi
  · intro h
    simp only [SequentialSlice.writeFromChannelToSlice, if_pos h]
  · intro h1 h2 h3
    have hguard : ¬(channel ≥ s.channels ∨ start ≥ s.frames) := by omega
    simp only [SequentialSlice.writeFromChannelToSlice, if_neg hguard, hmin]
    set n := min (s.frames - start) slice.length with hn
    have hidx : s.calc_index channel start + n ≤ s.buf.length := by
      have hstep : s.calc_index channel start + n ≤ (channel + 1) * s.frames := by
        simp only [SequentialSlice.calc_index]
        have : n ≤ s.frames - start := by omega
        have hexp : (channel + 1) * s.frames = channel * s.frames + s.frames := by ring
        omega
      have hmul : (channel + 1) * s.frames ≤ s.channels * s.frames :=
        Nat.mul_le_mul_right _ (by omega)
      omega
    have hlen : ((s.buf.drop (s.calc_index channel start)).take n).length = n := by
      simp only [List.length_take, List.length_drop]
      omega
    have hle : n ≤ slice.length := by omega
    obtain ⟨htail1, htail2⟩ := overwrite_tail_spec
      ((s.buf.drop (s.calc_index channel start)).take n) slice (by rw [hlen]; exact hle)
    refine ⟨by trivial, ?_, ?_, ?_⟩
    · rw [hlen] at htail1; exact htail1
    · intro i hi
      rw [List.getElem?_append]
      rw [hlen, if_pos hi, List.getElem?_take, if_pos hi, List.getElem?_drop]
      congr 1
      simp only [SequentialSlice.calc_index]
      omega
    · intro i hi
      rw [hlen] at htail2; exact htail2 i hi

/-- C6 witness: a 2 × 3 buffer, extracting channel 0 from frame 1 into
a length-4 slice copies exactly 2 elements in ascending frame order and
leaves the tail `[9, 9]` untouched. -/
theorem c6_bulk_extraction_truncation_witness :
    (((AudioBufferM.mk 2 3 (fun c f => (c * 3 + f : ℤ))).writeFromChannelToSlice
        0 1 [9, 9, 9, 9]).2 = min (3 - 1) 4 ∧
      ((AudioBufferM.mk 2 3 (fun c f => (c * 3 + f : ℤ))).writeFromChannelToSlice
        0 1 [9, 9, 9, 9]).1.length = 4 ∧
      (∀ i < min (3 - 1) 4,
        ((AudioBufferM.mk 2 3 (fun c f => (c * 3 + f : ℤ))).writeFromChannelToSlice
          0 1 [9, 9, 9, 9]).1[i]?
            = some ((AudioBufferM.mk 2 3 (fun c f => (c * 3 + f : ℤ))).getU 0 (1 + i))) ∧
      (∀ i, min (3 - 1) 4 ≤ i →
        ((AudioBufferM.mk 2 3 (fun c f => (c * 3 + f : ℤ))).writeFromChannelToSlice
          0 1 [9, 9, 9, 9]).1[i]? = [9, 9, 9, 9][i]?)) ∧
    (AudioBufferM.mk 2 3 (fun c f => (c * 3 + f : ℤ))).writeFromChannelToSlice 0 1 [9, 9, 9, 9]
      = ([1, 2, 9, 9], 2) :=
  ⟨(c6_bulk_extraction_truncation (AudioBufferM.mk 2 3 (fun c f => (c * 3 + f : ℤ)))
      (SequentialSlice.mk [1, 2, 3, 4, 5, 6] 3 2) 0 0 1 [9, 9, 9, 9]).2.1
    (by decide) (by decide), by decide⟩

/-- Parsing the little-endian serialisation of an in-range `i16`
recovers it. -/
theorem le16_roundtrip (k : ℤ) (h1 : -32768 ≤ k) (h2 : k < 32768) :
    i16ofU16 (fromLeBytes (i16leBytes k)) = k := by
  simp only [i16leBytes, fromLeBytes, byteAt, u16ofI16, i16ofU16, List.foldr]
  omega

/-- Parsing the big-endian serialisation of an in-range `i16`
recovers it. -/
theorem be16_roundtrip (k : ℤ) (h1 : -32768 ≤ k) (h2 : k < 32768) :
    i16ofU16 (fromBeBytes (i16beBytes k)) = k := by
  simp only [i16beBytes, fromBeBytes, byteAt, u16ofI16, i16ofU16, List.foldl]
  omega

/-- Parsing the little-endian serialisation of an in-range `i32`
recovers it. -/
theorem le32_roundtrip (k : ℤ) (h1 : -2147483648 ≤ k) (h2 : k < 2147483648) :
    i32ofU32 (fromLeBytes (i32leBytes k)) = k := by
  simp only [i32leBytes, fromLeBytes, byteAt, u32ofI32, i32ofU32, List.foldr]
  omega

/-- Parsing the big-endian serialisation of an in-range `i32`
recovers it. -/
theorem be32_roundtrip (k : ℤ) (h1 : -2147483648 ≤ k) (h2 : k < 2147483648) :
    i32ofU32 (fromBeBytes (i32beBytes k)) = k := by
  simp only [i32beBytes, fromBeBytes, byteAt, u32ofI32, i32ofU32, List.foldl]
  omega

/-- The 24-bit little-endian store/decode path: keeping the high three
bytes of an in-range `i32` and re-parsing them zero-padded at the
low-order position yields the value floor-shifted to a multiple of
256. -/
theorem s24_3_le_store_decode (k : ℤ) (h1 : -2147483648 ≤ k) (h2 : k < 2147483648) :
    i32ofU32 (fromLeBytes
        [0, byteAt (u32ofI32 k) 1, byteAt (u32ofI32 k) 2, byteAt (u32ofI32 k) 3])
      = 256 * (k / 256) := by
  simp only [fromLeBytes, byteAt, u32ofI32, i32ofU32, List.foldr]
  omega

/-- The 24-bit big-endian store/decode path. -/
theorem s24_3_be_store_decode (k : ℤ) (h1 : -2147483648 ≤ k) (h2 : k < 2147483648) :
    i32ofU32 (fromBeBytes
        [byteAt (u32ofI32 k) 3, byteAt (u32ofI32 k) 2, byteAt (u32ofI32 k) 1, 0])
      = 256 * (k / 256) := by
  simp only [fromBeBytes, byteAt, u32ofI32, i32ofU32, List.foldl]
  omega

/-- A parsed `u16` bit pattern lies in the `i16` range. -/
theorem i16ofU16_range (n : ℕ) (h : n < 65536) :
    -32768 ≤ i16ofU16 n ∧ i16ofU16 n < 32768 := by
  simp only [i16ofU16]; omega

/-- A parsed `u32` bit pattern lies in the `i32` range. -/
theorem i32ofU32_range (n : ℕ) (h : n < 4294967296) :
    -2147483648 ≤ i32ofU32 n ∧ i32ofU32 n < 2147483648 := by
  simp only [i32ofU32]; omega

/-- Truncation toward zero is the identity on integers. -/
theorem rustTrunc_intCast (k : ℤ) : rustTrunc (k : ℚ) = k := by
  unfold rustTrunc
  by_cases h : (0 : ℚ) ≤ (k : ℚ)
  · rw [if_pos h, Int.floor_intCast]
  · rw [if_neg h]
    rw [show (-(k : ℚ)) = ((-k : ℤ) : ℚ) by push_cast; ring, Int.floor_intCast]
    ring

/-- The saturating `as i16` cast is the identity on in-range
integers. -/
theorem i16cast_intCast (k : ℤ) (h1 : -32768 ≤ k) (h2 : k ≤ 32767) :
    i16cast (k : ℚ) = k := by
  unfold i16cast
  rw [rustTrunc_intCast]
  omega

/-- The saturating `as i32` cast is the identity on in-range
integers. -/
theorem i32cast_intCast (k : ℤ) (h1 : -2147483648 ≤ k) (h2 : k ≤ 2147483647) :
    i32cast (k : ℚ) = k := by
  unfold i32cast
  rw [rustTrunc_intCast]
  omega

/-- The saturating `as i32` cast always lands in the `i32` range. -/
theorem i32cast_range (x : ℚ) :
    -2147483648 ≤ i32cast x ∧ i32cast x ≤ 2147483647 := by
  unfold i32cast
  omega

/-- `clamp_int` does not alter an in-range value and reports no
clipping. -/
theorem clamp_int_eq_self (lo hi x : ℚ) (h1 : lo ≤ x) (h2 : x ≤ hi) :
    clamp_int lo hi x = (x, false) := by
  unfold clamp_int
  rw [if_neg (not_lt.mpr h2), if_neg (not_lt.mpr h1)]

/-- `clamp_int` reports clipping above the upper bound. -/
theorem clamp_int_high (lo hi x : ℚ) (h : hi < x) :
    clamp_int lo hi x = (hi, true) := by
  unfold clamp_int
  rw [if_pos h]

/-- `clamp_float` does not alter a value in `[-1, 1)` and reports no
clipping. -/
theorem clamp_float_eq_self (x : ℚ) (h1 : -1 ≤ x) (h2 : x < 1) :
    clamp_float x = (x, false) := by
  unfold clamp_float
  rw [if_neg (not_le.mpr h2), if_neg (not_lt.mpr h1)]

/-- `clamp_float` clips at and above `1`. -/
theorem clamp_float_high (x : ℚ) (h : 1 ≤ x) : clamp_float x = (1, true) := by
  unfold clamp_float
  rw [if_pos h]

/-- The fuelled log2 never exceeds its fuel. -/
theorem nlog2aux_le_fuel : ∀ (fuel n : ℕ), nlog2aux fuel n ≤ fuel := by
  intro fuel
  induction fuel with
  | zero => intro n; simp [nlog2aux]
  | succ f ih =>
    intro n
    unfold nlog2aux
    by_cases h : n ≤ 1
    · rw [if_pos h]; omega
    · rw [if_neg h]
      have := ih (n / 2)
      omega

/-- Lower bound of the fuelled log2, independent of the fuel. -/
theorem nlog2aux_lower : ∀ (fuel n : ℕ), 0 < n → 2 ^ nlog2aux fuel n ≤ n := by
  intro fuel
  induction fuel with
  | zero => intro n h; simpa [nlog2aux] using h
  | succ f ih =>
    intro n h
    unfold nlog2aux
    by_cases hle : n ≤ 1
    · rw [if_pos hle]; omega
    · rw [if_neg hle]
      have h2 : 0 < n / 2 := by omega
      have := ih (n / 2) h2
      calc 2 ^ (nlog2aux f (n / 2) + 1) = 2 * 2 ^ nlog2aux f (n / 2) := by ring
        _ ≤ 2 * (n / 2) := by omega
        _ ≤ n := by omega

/-- Upper bound of the fuelled log2: exact whenever the recursion
terminated on its own (result strictly below the fuel). -/
theorem nlog2aux_upper : ∀ (fuel n : ℕ), nlog2aux fuel n < fuel →
    n < 2 ^ (nlog2aux fuel n + 1) := by
  intro fuel
  induction fuel with
  | zero => intro n h; omega
  | succ f ih =>
    intro n h
    unfold nlog2aux at h ⊢
    by_cases hle : n ≤ 1
    · rw [if_pos hle]; simpa using by omega
    · rw [if_neg hle]
      rw [if_neg hle] at h
      have hrec : nlog2aux f (n / 2) < f := by omega
      have := ih (n / 2) hrec
      have hpow : 2 ^ (nlog2aux f (n / 2) + 1 + 1) = 2 * 2 ^ (nlog2aux f (n / 2) + 1) := by
        ring
      omega

/-- The fuelled log2 is monotone. -/
theorem nlog2aux_mono : ∀ (fuel m n : ℕ), m ≤ n → nlog2aux fuel m ≤ nlog2aux fuel n := by
  intro fuel
  induction fuel with
  | zero => intro m n _; simp [nlog2aux]
  | succ f ih =>
    intro m n hmn
    unfold nlog2aux
    by_cases hm : m ≤ 1
    · rw [if_pos hm]; omega
    · rw [if_neg hm, if_neg (by omega : ¬n ≤ 1)]
      have := ih (m / 2) (n / 2) (by omega)
      omega

/-- `nlog2` is exact below `2 ^ 64`. -/
theorem nlog2_spec (n : ℕ) (h1 : 0 < n) (h2 : n < 18446744073709551616) :
    2 ^ nlog2 n ≤ n ∧ n < 2 ^ (nlog2 n + 1) := by
  refine ⟨nlog2aux_lower 64 n h1, ?_⟩
  have hlt : nlog2aux 64 n < 64 := by
    by_contra hcon
    have h64 : nlog2aux 64 n = 64 := le_antisymm (nlog2aux_le_fuel 64 n) (by omega)
    have := nlog2aux_lower 64 n h1
    rw [h64] at this
    norm_num at this
    omega
  exact nlog2aux_upper 64 n hlt

/-- Binary32 rounding is the identity on multiples of 256 up to
`2 ^ 31` in magnitude (in particular on every value the 24-bit decoders
produce). -/
theorem roundIntF32_eq_self (n : ℤ) (h1 : n.natAbs ≤ 2147483648)
    (h2 : (256 : ℤ) ∣ n) : roundIntF32 n = n := by
  unfold roundIntF32
  by_cases hsmall : n.natAbs < 16777216
  · rw [if_pos hsmall]
  · rw [if_neg hsmall]
    have hd : (256 : ℕ) ∣ n.natAbs := by
      have := Int.natAbs_dvd_natAbs.mpr h2
      simpa using this
    have hspec := nlog2_spec n.natAbs (by omega) (by omega)
    have he24 : 24 ≤ nlog2 n.natAbs := by
      by_contra hcon
      have : 2 ^ (nlog2 n.natAbs + 1) ≤ 2 ^ 24 := Nat.pow_le_pow_right (by norm_num) (by omega)
      omega
    have he31 : nlog2 n.natAbs ≤ 31 := by
      by_contra hcon
      have : (2 : ℕ) ^ 32 ≤ 2 ^ nlog2 n.natAbs := Nat.pow_le_pow_right (by norm_num) (by omega)
      have := hspec.1
      omega
    have hu : (2 : ℕ) ^ (nlog2 n.natAbs - 23) ∣ n.natAbs := by
      refine dvd_trans ?_ hd
      have h8 : (2 : ℕ) ^ (nlog2 n.natAbs - 23) ∣ 2 ^ 8 := Nat.pow_dvd_pow 2 (by omega)
      simpa using h8
    obtain ⟨c, hc⟩ := hu
    have hupos : 0 < (2 : ℕ) ^ (nlog2 n.natAbs - 23) := Nat.pos_pow_of_pos _ (by norm_num)
    have hr0 : n.natAbs % 2 ^ (nlog2 n.natAbs - 23) = 0 :=
      Nat.mod_eq_zero_of_dvd ⟨c, hc⟩
    simp only [hr0, Nat.mul_zero]
    rw [if_pos (by omega : 2 * 0 < 2 ^ (nlog2 n.natAbs - 23))]
    rw [Nat.div_mul_cancel ⟨c, hc⟩]
    exact Int.sign_mul_natAbs n

/-- Binary32 rounding keeps integers of magnitude at most `2 ^ 31`
within that magnitude. -/
theorem roundIntF32_natAbs_le (n : ℤ) (h1 : n.natAbs ≤ 2147483648) :
    (roundIntF32 n).natAbs ≤ 2147483648 := by
  unfold roundIntF32
  by_cases hsmall : n.natAbs < 16777216
  · rw [if_pos hsmall]; omega
  · rw [if_neg hsmall]
    simp only []
    have hspec := nlog2_spec n.natAbs (by omega) (by omega)
    have he24 : 24 ≤ nlog2 n.natAbs := by
      by_contra hcon
      have : 2 ^ (nlog2 n.natAbs + 1) ≤ 2 ^ 24 := Nat.pow_le_pow_right (by norm_num) (by omega)
      omega
    have he31 : nlog2 n.natAbs ≤ 31 := by
      by_contra hcon
      have : (2 : ℕ) ^ 32 ≤ 2 ^ nlog2 n.natAbs := Nat.pow_le_pow_right (by norm_num) (by omega)
      have := hspec.1
      omega
    have hupos : 0 < (2 : ℕ) ^ (nlog2 n.natAbs - 23) := Nat.pos_pow_of_pos _ (by norm_num)
    have hu2 : (2 : ℕ) ≤ 2 ^ (nlog2 n.natAbs - 23) := by
      calc (2 : ℕ) = 2 ^ 1 := by norm_num
        _ ≤ 2 ^ (nlog2 n.natAbs - 23) := Nat.pow_le_pow_right (by norm_num) (by omega)
    have huK : 2 ^ (nlog2 n.natAbs - 23) * 2 ^ (31 - (nlog2 n.natAbs - 23)) = 2147483648 := by
      have hexp : nlog2 n.natAbs - 23 + (31 - (nlog2 n.natAbs - 23)) = 31 := by omega
      rw [← pow_add, hexp]
      norm_num
    have habs : ∀ m2 : ℕ, m2 ≤ 2147483648 → (n.sign * (m2 : ℤ)).natAbs ≤ 2147483648 := by
      intro m2 hm2
      rw [Int.natAbs_mul]
      have hsgn : n.sign.natAbs ≤ 1 := by
        rcases n with m | m
        · cases m <;> simp [Int.sign]
        · simp [Int.sign]
      calc n.sign.natAbs * (m2 : ℤ).natAbs ≤ 1 * (m2 : ℤ).natAbs :=
            Nat.mul_le_mul_right _ hsgn
        _ = m2 := by simp
        _ ≤ 2147483648 := hm2
    have hdm := Nat.div_add_mod n.natAbs (2 ^ (nlog2 n.natAbs - 23))
    rw [Nat.mul_comm] at hdm
    have hdown : n.natAbs / 2 ^ (nlog2 n.natAbs - 23) * 2 ^ (nlog2 n.natAbs - 23)
        ≤ 2147483648 := by
      have := Nat.div_mul_le_self n.natAbs (2 ^ (nlog2 n.natAbs - 23))
      omega
    have hup : ¬(2 * (n.natAbs % 2 ^ (nlog2 n.natAbs - 23)) < 2 ^ (nlog2 n.natAbs - 23)) →
        (n.natAbs / 2 ^ (nlog2 n.natAbs - 23) + 1) * 2 ^ (nlog2 n.natAbs - 23)
          ≤ 2147483648 := by
      intro hbr
      have hr1 : 1 ≤ n.natAbs % 2 ^ (nlog2 n.natAbs - 23) := by omega
      have hqlt : n.natAbs / 2 ^ (nlog2 n.natAbs - 23) * 2 ^ (nlog2 n.natAbs - 23)
          < 2147483648 := by omega
      have hqK : n.natAbs / 2 ^ (nlog2 n.natAbs - 23) < 2 ^ (31 - (nlog2 n.natAbs - 23)) := by
        by_contra hcon
        have : 2 ^ (31 - (nlog2 n.natAbs - 23)) * 2 ^ (nlog2 n.natAbs - 23)
            ≤ n.natAbs / 2 ^ (nlog2 n.natAbs - 23) * 2 ^ (nlog2 n.natAbs - 23) :=
          Nat.mul_le_mul_right _ (by omega)
        rw [Nat.mul_comm, huK] at this
        omega
      have hstep : (n.natAbs / 2 ^ (nlog2 n.natAbs - 23) + 1) * 2 ^ (nlog2 n.natAbs - 23)
          ≤ 2 ^ (31 - (nlog2 n.natAbs - 23)) * 2 ^ (nlog2 n.natAbs - 23) :=
        Nat.mul_le_mul_right _ (by omega)
      have hKu : 2 ^ (31 - (nlog2 n.natAbs - 23)) * 2 ^ (nlog2 n.natAbs - 23) = 2147483648 := by
        rw [Nat.mul_comm]; exact huK
      omega
    by_cases hc1 : 2 * (n.natAbs % 2 ^ (nlog2 n.natAbs - 23)) < 2 ^ (nlog2 n.natAbs - 23)
    · rw [if_pos hc1]
      exact habs _ hdown
    · rw [if_neg hc1]
      by_cases hc2 : 2 ^ (nlog2 n.natAbs - 23) < 2 * (n.natAbs % 2 ^ (nlog2 n.natAbs - 23))
      · rw [if_pos hc2]
        exact habs _ (hup hc1)
      · rw [if_neg hc2]
        by_cases hc3 : n.natAbs / 2 ^ (nlog2 n.natAbs - 23) % 2 = 0
        · rw [if_pos hc3]
          exact habs _ hdown
        · rw [if_neg hc3]
          exact habs _ (hup hc1)

/-- An integer strictly inside `(-c, c)` divided by `c` lies in
`[-1, 1)`. -/
theorem int_div_in_range (k : ℤ) (c : ℚ) (hc : 0 < c) (h1 : -c ≤ (k : ℚ))
    (h2 : (k : ℚ) < c) : -1 ≤ (k : ℚ) / c ∧ (k : ℚ) / c < 1 := by
  constructor
  · rw [le_div_iff₀ hc]; linarith
  · rw [div_lt_one hc]; exact h2

/-- C4 counterexample: the claim puts every decoded signed-integer
value in the half-open range `[-1.0, +1.0)`, but for the `f32` sample
type `from_s32_le` of `i32::MAX` (bytes `[255, 255, 255, 127]`) rounds
`2147483647` up to `2 ^ 31` (an `i32` cannot be represented exactly in
an `f32`) and returns exactly `1.0`. -/
theorem c4_decode_reaches_one_counterexample :
    SampleF32.from_s32_le [255, 255, 255, 127] = 1 ∧
    ¬(SampleF32.from_s32_le [255, 255, 255, 127] < 1) := by
  have h : SampleF32.from_s32_le [255, 255, 255, 127] = 1 := by
    norm_num [SampleF32.from_s32_le, fromLeBytes, i32ofU32, roundIntF32, nlog2, nlog2aux]
    decide
  exact ⟨h, by rw [h]; exact lt_irrefl 1⟩

/-- C4 amended: decoding never clips.  For every byte input, the `f64`
decoders of all signed-integer formats, and the `f32` decoders of the
16- and 24-bit formats, return a value in `[-1.0, +1.0)`; the `f32`
decoder of the 32-bit formats returns a value in `[-1.0, +1.0]`, and
the upper bound `1.0` is attained (see the counterexample) because
`intvalue as f32` rounds.  Float formats are parsed and returned as-is,
which can lie outside `[-1.0, +1.0]`: bytes `[0, 0, 0, 64]` decode to
`2.0` unchanged. -/
theorem c4_decode_range_amended (b0 b1 b2 b3 : ℕ) (h0 : b0 < 256) (h1 : b1 < 256)
    (h2 : b2 < 256) (h3 : b3 < 256) :
    (-1 ≤ SampleF64.from_s16_le [b0, b1] ∧ SampleF64.from_s16_le [b0, b1] < 1) ∧
    (-1 ≤ SampleF64.from_s16_be [b0, b1] ∧ SampleF64.from_s16_be [b0, b1] < 1) ∧
    (-1 ≤ SampleF64.from_s24_3_le [b0, b1, b2] ∧ SampleF64.from_s24_3_le [b0, b1, b2] < 1) ∧
    (-1 ≤ SampleF64.from_s24_3_be [b0, b1, b2] ∧ SampleF64.from_s24_3_be [b0, b1, b2] < 1) ∧
    (-1 ≤ SampleF64.from_s24_4_le [b0, b1, b2, b3] ∧
      SampleF64.from_s24_4_le [b0, b1, b2, b3] < 1) ∧
    (-1 ≤ SampleF64.from_s24_4_be [b0, b1, b2, b3] ∧
      SampleF64.from_s24_4_be [b0, b1, b2, b3] < 1) ∧
    (-1 ≤ SampleF64.from_s32_le [b0, b1, b2, b3] ∧ SampleF64.from_s32_le [b0, b1, b2, b3] < 1) ∧
    (-1 ≤ SampleF64.from_s32_be [b0, b1, b2, b3] ∧ SampleF64.from_s32_be [b0, b1, b2, b3] < 1) ∧
    (-1 ≤ SampleF32.from_s16_le [b0, b1] ∧ SampleF32.from_s16_le [b0, b1] < 1) ∧
    (-1 ≤ SampleF32.from_s16_be [b0, b1] ∧ SampleF32.from_s16_be [b0, b1] < 1) ∧
    (-1 ≤ SampleF32.from_s24_3_le [b0, b1, b2] ∧ SampleF32.from_s24_3_le [b0, b1, b2] < 1) ∧
    (-1 ≤ SampleF32.from_s24_3_be [b0, b1, b2] ∧ SampleF32.from_s24_3_be [b0, b1, b2] < 1) ∧
    (-1 ≤ SampleF32.from_s24_4_le [b0, b1, b2, b3] ∧
      SampleF32.from_s24_4_le [b0, b1, b2, b3] < 1) ∧
    (-1 ≤ SampleF32.from_s24_4_be [b0, b1, b2, b3] ∧
      SampleF32.from_s24_4_be [b0, b1, b2, b3] < 1) ∧
    (-1 ≤ SampleF32.from_s32_le [b0, b1, b2, b3] ∧ SampleF32.from_s32_le [b0, b1, b2, b3] ≤ 1) ∧
    (-1 ≤ SampleF32.from_s32_be [b0, b1, b2, b3] ∧ SampleF32.from_s32_be [b0, b1, b2, b3] ≤ 1) ∧
    SampleF64.from_f32_le [0, 0, 0, 64] = 2 ∧
    SampleF32.from_f32_le [0, 0, 0, 64] = 2 := by
  have hs16 : ∀ n : ℕ, n < 65536 →
      -1 ≤ (i16ofU16 n : ℚ) / 32768 ∧ (i16ofU16 n : ℚ) / 32768 < 1 := by
    intro n hn
    obtain ⟨hk1, hk2⟩ := i16ofU16_range n hn
    refine int_div_in_range _ 32768 (by norm_num) ?_ ?_
    · have : ((-32768 : ℤ) : ℚ) ≤ ((i16ofU16 n : ℤ) : ℚ) := by exact_mod_cast hk1
      push_cast at this ⊢
      linarith
    · exact_mod_cast hk2
  have hs32 : ∀ n : ℕ, n < 4294967296 →
      -1 ≤ (i32ofU32 n : ℚ) / 2147483648 ∧ (i32ofU32 n : ℚ) / 2147483648 < 1 := by
    intro n hn
    obtain ⟨hk1, hk2⟩ := i32ofU32_range n hn
    refine int_div_in_range _ 2147483648 (by norm_num) ?_ ?_
    · have : ((-2147483648 : ℤ) : ℚ) ≤ ((i32ofU32 n : ℤ) : ℚ) := by exact_mod_cast hk1
      push_cast at this ⊢
      linarith
    · exact_mod_cast hk2
  have hs24f32 : ∀ n : ℕ, n < 4294967296 → 256 ∣ n →
      -1 ≤ (roundIntF32 (i32ofU32 n) : ℚ) / 2147483648 ∧
        (roundIntF32 (i32ofU32 n) : ℚ) / 2147483648 < 1 := by
    intro n hn hdvd
    have hdz : (256 : ℤ) ∣ i32ofU32 n := by
      simp only [i32ofU32]
      split_ifs <;> omega
    obtain ⟨hk1, hk2⟩ := i32ofU32_range n hn
    rw [roundIntF32_eq_self (i32ofU32 n) (by omega) hdz]
    refine int_div_in_range _ 2147483648 (by norm_num) ?_ ?_
    · have : ((-2147483648 : ℤ) : ℚ) ≤ ((i32ofU32 n : ℤ) : ℚ) := by exact_mod_cast hk1
      push_cast at this ⊢
      linarith
    · exact_mod_cast hk2
  have hs32f32 : ∀ n : ℕ, n < 4294967296 →
      -1 ≤ (roundIntF32 (i32ofU32 n) : ℚ) / 2147483648 ∧
        (roundIntF32 (i32ofU32 n) : ℚ) / 2147483648 ≤ 1 := by
    intro n hn
    obtain ⟨hk1, hk2⟩ := i32ofU32_range n hn
    have hb := roundIntF32_natAbs_le (i32ofU32 n) (by omega)
    have hlow : (-2147483648 : ℤ) ≤ roundIntF32 (i32ofU32 n) := by omega
    have hhigh : roundIntF32 (i32ofU32 n) ≤ 2147483648 := by omega
    constructor
    · rw [le_div_iff₀ (by norm_num : (0 : ℚ) < 2147483648)]
      have : ((-2147483648 : ℤ) : ℚ) ≤ ((roundIntF32 (i32ofU32 n) : ℤ) : ℚ) := by
        exact_mod_cast hlow
      push_cast at this ⊢
      linarith
    · rw [div_le_one (by norm_num : (0 : ℚ) < 2147483648)]
      exact_mod_cast hhigh
  have hb16le : fromLeBytes [b0, b1] < 65536 := by simp [fromLeBytes]; omega
  have hb16be : fromBeBytes [b0, b1] < 65536 := by simp [fromBeBytes]; omega
  have hb24le : fromLeBytes (0 :: [b0, b1, b2]) < 4294967296 ∧
      256 ∣ fromLeBytes (0 :: [b0, b1, b2]) := by
    simp [fromLeBytes]; omega
  have hb24be : fromBeBytes ([b0, b1, b2] ++ [0]) < 4294967296 ∧
      256 ∣ fromBeBytes ([b0, b1, b2] ++ [0]) := by
    simp [fromBeBytes]; omega
  have hb244le : fromLeBytes (0 :: [b0, b1, b2, b3].take 3) < 4294967296 ∧
      256 ∣ fromLeBytes (0 :: [b0, b1, b2, b3].take 3) := by
    simp [fromLeBytes]; omega
  have hb244be : fromBeBytes ([b0, b1, b2, b3].drop 1 ++ [0]) < 4294967296 ∧
      256 ∣ fromBeBytes ([b0, b1, b2, b3].drop 1 ++ [0]) := by
    simp [fromBeBytes]; omega
  have hb32le : fromLeBytes [b0, b1, b2, b3] < 4294967296 := by simp [fromLeBytes]; omega
  have hb32be : fromBeBytes [b0, b1, b2, b3] < 4294967296 := by simp [fromBeBytes]; omega
  exact ⟨hs16 _ hb16le, hs16 _ hb16be,
    hs32 _ hb24le.1, hs32 _ hb24be.1, hs32 _ hb244le.1, hs32 _ hb244be.1,
    hs32 _ hb32le, hs32 _ hb32be,
    hs16 _ hb16le, hs16 _ hb16be,
    hs24f32 _ hb24le.1 hb24le.2, hs24f32 _ hb24be.1 hb24be.2,
    hs24f32 _ hb244le.1 hb244le.2, hs24f32 _ hb244be.1 hb244be.2,
    hs32f32 _ hb32le, hs32f32 _ hb32be,
    by norm_num [SampleF64.from_f32_le, fromLeBytes, parseF32bits],
    by norm_num [SampleF32.from_f32_le, fromLeBytes, parseF32bits]⟩

/-- C4 witness: the amended range theorem applied at the concrete byte
quadruple `(1, 2, 3, 4)`. -/
theorem c4_decode_range_amended_witness :
    (-1 ≤ SampleF64.from_s16_le [1, 2] ∧ SampleF64.from_s16_le [1, 2] < 1) ∧
    (-1 ≤ SampleF32.from_s32_le [1, 2, 3, 4] ∧ SampleF32.from_s32_le [1, 2, 3, 4] ≤ 1) :=
  ⟨(c4_decode_range_amended 1 2 3 4 (by norm_num) (by norm_num) (by norm_num)
      (by norm_num)).1,
    (c4_decode_range_amended 1 2 3 4 (by norm_num) (by norm_num) (by norm_num)
      (by norm_num)).2.2.2.2.2.2.2.2.2.2.2.2.2.2.1⟩

/-- Characterisation of `roundF32q` when the fractional part is below
one half: round down to `n * 2 ^ (e - 23)`. -/
theorem roundF32q_eq_down (x : ℚ) (e n : ℤ) (hx : x ≠ 0)
    (he : max (qlog2 |x|) (-126) = e)
    (hn : ⌊x / (2 : ℚ) ^ (e - 23)⌋ = n)
    (hr : x / (2 : ℚ) ^ (e - 23) - (n : ℚ) < 1 / 2) :
    roundF32q x = (n : ℚ) * (2 : ℚ) ^ (e - 23) := by
  unfold roundF32q
  rw [if_neg hx]
  simp only [he, hn]
  rw [if_pos hr]

/-- Characterisation of `roundF32q` when the fractional part is above
one half: round up to `(n + 1) * 2 ^ (e - 23)`. -/
theorem roundF32q_eq_up (x : ℚ) (e n : ℤ) (hx : x ≠ 0)
    (he : max (qlog2 |x|) (-126) = e)
    (hn : ⌊x / (2 : ℚ) ^ (e - 23)⌋ = n)
    (hr : 1 / 2 < x / (2 : ℚ) ^ (e - 23) - (n : ℚ)) :
    roundF32q x = ((n + 1 : ℤ) : ℚ) * (2 : ℚ) ^ (e - 23) := by
  unfold roundF32q
  rw [if_neg hx]
  simp only [he, hn]
  rw [if_neg (by linarith), if_pos hr]

/-- For `x ≥ 1` the computed binary exponent is nonnegative. -/
theorem qlog2_nonneg (x : ℚ) (hx : 1 ≤ x) : 0 ≤ qlog2 x := by
  have hxpos : (0 : ℚ) < x := by linarith
  have hnum_pos : 0 < x.num := Rat.num_pos.mpr hxpos
  have hden_le_num : (x.den : ℤ) ≤ x.num := by
    have hx2 : (1 : ℚ) ≤ (x.num : ℚ) / (x.den : ℚ) := by rw [Rat.num_div_den]; exact hx
    have hdpos : (0 : ℚ) < (x.den : ℚ) := by exact_mod_cast x.den_pos
    rw [one_le_div hdpos] at hx2
    exact_mod_cast hx2
  unfold qlog2
  simp only []
  split_ifs with hc
  · have hmono := nlog2aux_mono 64 x.den x.num.natAbs (by omega)
    unfold nlog2
    omega
  · by_contra hcon
    have hab : (nlog2 x.num.natAbs : ℤ) - (nlog2 x.den : ℤ) ≤ 0 := by omega
    have hle1 : (2 : ℚ) ^ ((nlog2 x.num.natAbs : ℤ) - (nlog2 x.den : ℤ)) ≤ 1 :=
      zpow_le_one_of_nonpos₀ one_le_two hab
    exact hc (hle1.trans hx)

/-- For `x ≥ 1` the value is at least `2` to the computed binary
exponent. -/
theorem qlog2_le_self (x : ℚ) (hx : 1 ≤ x) : (2 : ℚ) ^ qlog2 x ≤ x := by
  have hxpos : (0 : ℚ) < x := by linarith
  have hnum_pos : 0 < x.num := Rat.num_pos.mpr hxpos
  unfold qlog2
  simp only []
  split_ifs with hc
  · exact hc
  · have hab : (nlog2 x.den : ℤ) + 1 ≤ (nlog2 x.num.natAbs : ℤ) := by
      by_contra hcon
      have hle1 : (2 : ℚ) ^ ((nlog2 x.num.natAbs : ℤ) - (nlog2 x.den : ℤ)) ≤ 1 :=
        zpow_le_one_of_nonpos₀ one_le_two (by omega)
      exact hc (hle1.trans hx)
    have ha64 : nlog2 x.num.natAbs ≤ 64 := nlog2aux_le_fuel 64 _
    have hb63 : nlog2 x.den < 64 := by unfold nlog2 at hab ha64 ⊢; omega
    have hnum_lb : (2 : ℕ) ^ nlog2 x.num.natAbs ≤ x.num.natAbs :=
      nlog2aux_lower 64 _ (by omega)
    have hden_ub : x.den < 2 ^ (nlog2 x.den + 1) := nlog2aux_upper 64 x.den hb63
    have hq1 : ((2 : ℚ) ^ nlog2 x.num.natAbs : ℚ) ≤ (x.num : ℚ) := by
      have h1 : ((2 ^ nlog2 x.num.natAbs : ℕ) : ℚ) ≤ ((x.num.natAbs : ℕ) : ℚ) := by
        exact_mod_cast hnum_lb
      have h2 : (x.num.natAbs : ℚ) = (x.num : ℚ) := by
        rw [Int.cast_natAbs]
        exact_mod_cast abs_of_nonneg (le_of_lt hnum_pos)
      rw [h2] at h1
      push_cast at h1 ⊢
      exact h1
    have hq2 : ((x.den : ℕ) : ℚ) ≤ ((2 ^ (nlog2 x.den + 1) : ℕ) : ℚ) := by
      exact_mod_cast le_of_lt hden_ub
    have hdiv : ((2 : ℚ) ^ nlog2 x.num.natAbs) / ((2 : ℚ) ^ (nlog2 x.den + 1)) ≤
        (x.num : ℚ) / (x.den : ℚ) := by
      apply div_le_div₀ (by positivity) hq1 (by exact_mod_cast x.den_pos)
      push_cast at hq2 ⊢
      exact hq2
    rw [Rat.num_div_den] at hdiv
    refine le_trans (le_of_eq ?_) hdiv
    rw [← zpow_natCast (2 : ℚ) (nlog2 x.num.natAbs), ← zpow_natCast (2 : ℚ) (nlog2 x.den + 1),
      ← zpow_sub₀ (two_ne_zero)]
    congr 1
    push_cast
    ring

/-- Binary32 rounding maps values at least `1` to values at least `1`:
rounding toward nearest never crosses below the representable `1.0`. -/
theorem roundF32q_ge_one (x : ℚ) (hx : 1 ≤ x) : 1 ≤ roundF32q x := by
  have hxpos : (0 : ℚ) < x := by linarith
  have hx0 : x ≠ 0 := ne_of_gt hxpos
  have habs : |x| = x := abs_of_pos hxpos
  have hA0 : 0 ≤ qlog2 x := qlog2_nonneg x hx
  have hA2x : (2 : ℚ) ^ qlog2 x ≤ x := qlog2_le_self x hx
  unfold roundF32q
  rw [if_neg hx0, habs]
  have hmax : max (qlog2 x) (-126) = qlog2 x := max_eq_left (by omega)
  rw [hmax]
  simp only []
  have hupos : (0 : ℚ) < (2 : ℚ) ^ (qlog2 x - 23) := by positivity
  have hkey : 1 ≤ (⌊x / (2 : ℚ) ^ (qlog2 x - 23)⌋ : ℚ) * (2 : ℚ) ^ (qlog2 x - 23) := by
    by_cases hA23 : qlog2 x ≤ 23
    · have hdiv : x / (2 : ℚ) ^ (qlog2 x - 23) = x * (2 : ℚ) ^ (23 - qlog2 x) := by
        rw [div_eq_mul_inv, ← zpow_neg, neg_sub]
      have hxK : (2 : ℚ) ^ (23 - qlog2 x) ≤ x / (2 : ℚ) ^ (qlog2 x - 23) := by
        rw [hdiv]
        exact le_mul_of_one_le_left (by positivity) hx
      have hz : ((2 ^ (23 - qlog2 x).toNat : ℤ) : ℚ) = (2 : ℚ) ^ (23 - qlog2 x) := by
        push_cast
        rw [← zpow_natCast (2 : ℚ) (23 - qlog2 x).toNat]
        congr 1
        omega
      have hfl : (2 ^ (23 - qlog2 x).toNat : ℤ) ≤ ⌊x / (2 : ℚ) ^ (qlog2 x - 23)⌋ :=
        Int.le_floor.mpr (by rw [hz]; exact hxK)
      calc (1 : ℚ) = (2 : ℚ) ^ (23 - qlog2 x) * (2 : ℚ) ^ (qlog2 x - 23) := by
            rw [← zpow_add₀ (two_ne_zero),
              show 23 - qlog2 x + (qlog2 x - 23) = 0 from by ring, zpow_zero]
        _ ≤ (⌊x / (2 : ℚ) ^ (qlog2 x - 23)⌋ : ℚ) * (2 : ℚ) ^ (qlog2 x - 23) := by
            refine mul_le_mul_of_nonneg_right ?_ hupos.le
            rw [← hz]
            exact_mod_cast hfl
    · have hu1 : (1 : ℚ) ≤ (2 : ℚ) ^ (qlog2 x - 23) := by
        calc (1 : ℚ) = 2 ^ (0 : ℤ) := by norm_num
          _ ≤ 2 ^ (qlog2 x - 23) := zpow_le_zpow_right₀ one_le_two (by omega)
      have hxu : (2 : ℚ) ^ (qlog2 x - 23) ≤ x :=
        le_trans (zpow_le_zpow_right₀ one_le_two (by omega)) hA2x
      have hn1 : (1 : ℤ) ≤ ⌊x / (2 : ℚ) ^ (qlog2 x - 23)⌋ :=
        Int.le_floor.mpr (by
          rw [show ((1 : ℤ) : ℚ) = 1 from rfl]
          exact (one_le_div hupos).mpr hxu)
      calc (1 : ℚ) ≤ (2 : ℚ) ^ (qlog2 x - 23) := hu1
        _ = 1 * (2 : ℚ) ^ (qlog2 x - 23) := (one_mul _).symm
        _ ≤ (⌊x / (2 : ℚ) ^ (qlog2 x - 23)⌋ : ℚ) * (2 : ℚ) ^ (qlog2 x - 23) := by
            refine mul_le_mul_of_nonneg_right ?_ hupos.le
            exact_mod_cast hn1
  have hmono : ∀ m : ℤ, ⌊x / (2 : ℚ) ^ (qlog2 x - 23)⌋ ≤ m →
      1 ≤ (m : ℚ) * (2 : ℚ) ^ (qlog2 x - 23) := by
    intro m hm
    refine hkey.trans (mul_le_mul_of_nonneg_right ?_ hupos.le)
    exact_mod_cast hm
  split_ifs with h1 h2 h3
  · exact hmono _ le_rfl
  · exact hmono _ (by omega)
  · exact hmono _ le_rfl
  · exact hmono _ (by omega)

/-- C2 counterexample: for the `f32` sample type the integer clamp
bound is `i32::MAX as f32 = 2 ^ 31` exactly, so encoding exactly `1.0`
to the 32-bit-scaled formats does NOT report clipping (the claim says
every encode of `1.0` reports `clipped = true`); the saturating cast
still produces the `i32::MAX` bytes. -/
theorem c2_clip_at_one_f32_counterexample :
    SampleF32.to_s32_le 1 = ([255, 255, 255, 127], false) ∧
    (SampleF32.to_s24_3_le 1).2 = false := by
  constructor
  · norm_num [SampleF32.to_s32_le, clamp_int, i32cast, rustTrunc, u32ofI32, i32leBytes, byteAt]
    decide
  · show (clamp_int (-2147483648) 2147483648 ((1 : ℚ) * 2147483648)).2 = false
    rw [show (1 : ℚ) * 2147483648 = 2147483648 by norm_num,
      clamp_int_eq_self _ _ _ (by norm_num) (by norm_num)]

/-- C2 amended: encoding `1.0` or any greater value reports
`clipped = true` for every format of the `f64` sample type and for the
16-bit and float formats of the `f32` sample type; for the `f32` sample
type's 32-bit-scaled integer formats (S32 and both S24 layouts) values
strictly above `1.0` clip but exactly `1.0` does NOT (the clamp bound
`i32::MAX as f32` rounds up to `2 ^ 31`); encoding each format's exact
representable maximum reports `clipped = false`. -/
theorem c2_clipping_boundary_amended :
    (∀ v : ℚ, 1 ≤ v →
      (SampleF64.to_s16_le v).2 = true ∧ (SampleF64.to_s16_be v).2 = true ∧
      (SampleF64.to_s24_3_le v).2 = true ∧ (SampleF64.to_s24_3_be v).2 = true ∧
      (SampleF64.to_s24_4_le v).2 = true ∧ (SampleF64.to_s24_4_be v).2 = true ∧
      (SampleF64.to_s32_le v).2 = true ∧ (SampleF64.to_s32_be v).2 = true ∧
      (SampleF64.to_f32_le v).2 = true ∧ (SampleF64.to_f32_be v).2 = true ∧
      (SampleF64.to_f64_le v).2 = true ∧ (SampleF64.to_f64_be v).2 = true ∧
      (SampleF32.to_s16_le v).2 = true ∧ (SampleF32.to_s16_be v).2 = true ∧
      (SampleF32.to_f32_le v).2 = true ∧ (SampleF32.to_f32_be v).2 = true ∧
      (SampleF32.to_f64_le v).2 = true ∧ (SampleF32.to_f64_be v).2 = true) ∧
    (∀ v : ℚ, 1 < v →
      (SampleF32.to_s24_3_le v).2 = true ∧ (SampleF32.to_s24_3_be v).2 = true ∧
      (SampleF32.to_s24_4_le v).2 = true ∧ (SampleF32.to_s24_4_be v).2 = true ∧
      (SampleF32.to_s32_le v).2 = true ∧ (SampleF32.to_s32_be v).2 = true) ∧
    ((SampleF32.to_s24_3_le 1).2 = false ∧ (SampleF32.to_s24_3_be 1).2 = false ∧
      (SampleF32.to_s24_4_le 1).2 = false ∧ (SampleF32.to_s24_4_be 1).2 = false ∧
      (SampleF32.to_s32_le 1).2 = false ∧ (SampleF32.to_s32_be 1).2 = false) ∧
    ((SampleF64.to_s16_le (32767 / 32768)).2 = false ∧
      (SampleF64.to_s16_be (32767 / 32768)).2 = false ∧
      (SampleF64.to_s24_3_le (8388607 / 8388608)).2 = false ∧
      (SampleF64.to_s24_3_be (8388607 / 8388608)).2 = false ∧
      (SampleF64.to_s24_4_le (8388607 / 8388608)).2 = false ∧
      (SampleF64.to_s24_4_be (8388607 / 8388608)).2 = false ∧
      (SampleF64.to_s32_le (2147483647 / 2147483648)).2 = false ∧
      (SampleF64.to_s32_be (2147483647 / 2147483648)).2 = false ∧
      (SampleF64.to_f64_le (9007199254740991 / 9007199254740992)).2 = false ∧
      (SampleF64.to_f64_be (9007199254740991 / 9007199254740992)).2 = false ∧
      (SampleF64.to_f32_le (16777215 / 16777216)).2 = false ∧
      (SampleF64.to_f32_be (16777215 / 16777216)).2 = false ∧
      (SampleF32.to_s16_le (32767 / 32768)).2 = false ∧
      (SampleF32.to_s16_be (32767 / 32768)).2 = false ∧
      (SampleF32.to_s24_3_le (8388607 / 8388608)).2 = false ∧
      (SampleF32.to_s24_3_be (8388607 / 8388608)).2 = false ∧
      (SampleF32.to_s24_4_le (8388607 / 8388608)).2 = false ∧
      (SampleF32.to_s24_4_be (8388607 / 8388608)).2 = false ∧
      (SampleF32.to_s32_le (16777215 / 16777216)).2 = false ∧
      (SampleF32.to_s32_be (16777215 / 16777216)).2 = false ∧
      (SampleF32.to_f32_le (16777215 / 16777216)).2 = false ∧
      (SampleF32.to_f32_be (16777215 / 16777216)).2 = false ∧
      (SampleF32.to_f64_le (16777215 / 16777216)).2 = false ∧
      (SampleF32.to_f64_be (16777215 / 16777216)).2 = false) := by
  have hround : roundF32q (16777215 / 16777216) = 16777215 / 16777216 := by
    have h := roundF32q_eq_down (16777215 / 16777216) (-1) 16777215 (by norm_num)
      (by rw [show |(16777215 : ℚ) / 16777216| = 16777215 / 16777216 by norm_num]
          norm_num [qlog2, nlog2, nlog2aux])
      (by norm_num) (by norm_num)
    rw [h]; norm_num
  refine ⟨?_, ?_, ?_, ?_⟩
  · intro v hv
    have hint : ∀ lo hi M : ℚ, 0 ≤ M → hi < M → (clamp_int lo hi (v * M)).2 = true := by
      intro lo hi M hM hhiM
      rw [clamp_int_high]
      calc hi < M := hhiM
        _ ≤ v * M := le_mul_of_one_le_left hM hv
    have hf : (clamp_float v).2 = true := by rw [clamp_float_high v hv]
    have hf32 : (clamp_float (roundF32q v)).2 = true := by
      rw [clamp_float_high _ (roundF32q_ge_one v hv)]
    exact ⟨hint _ _ _ (by norm_num) (by norm_num), hint _ _ _ (by norm_num) (by norm_num),
      hint _ _ _ (by norm_num) (by norm_num), hint _ _ _ (by norm_num) (by norm_num),
      hint _ _ _ (by norm_num) (by norm_num), hint _ _ _ (by norm_num) (by norm_num),
      hint _ _ _ (by norm_num) (by norm_num), hint _ _ _ (by norm_num) (by norm_num),
      hf32, hf32, hf, hf,
      hint _ _ _ (by norm_num) (by norm_num), hint _ _ _ (by norm_num) (by norm_num),
      hf, hf, hf, hf⟩
  · intro v hv
    have hint : ∀ lo M : ℚ, 0 < M → (clamp_int lo M (v * M)).2 = true := by
      intro lo M hM
      rw [clamp_int_high]
      exact (lt_mul_iff_one_lt_left hM).mpr hv
    exact ⟨hint _ _ (by norm_num), hint _ _ (by norm_num), hint _ _ (by norm_num),
      hint _ _ (by norm_num), hint _ _ (by norm_num), hint _ _ (by norm_num)⟩
  · have hone : (clamp_int (-2147483648) 2147483648 ((1 : ℚ) * 2147483648)).2 = false := by
      rw [show (1 : ℚ) * 2147483648 = 2147483648 by norm_num,
        clamp_int_eq_self _ _ _ (by norm_num) (by norm_num)]
    exact ⟨hone, hone, hone, hone, hone, hone⟩
  · have hmax : ∀ lo hi M x : ℚ, lo ≤ x * M → x * M ≤ hi →
        (clamp_int lo hi (x * M)).2 = false := by
      intro lo hi M x h1 h2
      rw [clamp_int_eq_self _ _ _ h1 h2]
    have hfmax : ∀ x : ℚ, -1 ≤ x → x < 1 → (clamp_float x).2 = false := by
      intro x h1 h2
      rw [clamp_float_eq_self x h1 h2]
    have hf32max : (clamp_float (roundF32q (16777215 / 16777216))).2 = false := by
      rw [hround]
      exact hfmax _ (by norm_num) (by norm_num)
    exact ⟨hmax _ _ _ _ (by norm_num) (by norm_num), hmax _ _ _ _ (by norm_num) (by norm_num),
      hmax _ _ _ _ (by norm_num) (by norm_num), hmax _ _ _ _ (by norm_num) (by norm_num),
      hmax _ _ _ _ (by norm_num) (by norm_num), hmax _ _ _ _ (by norm_num) (by norm_num),
      hmax _ _ _ _ (by norm_num) (by norm_num), hmax _ _ _ _ (by norm_num) (by norm_num),
      hfmax _ (by norm_num) (by norm_num), hfmax _ (by norm_num) (by norm_num),
      hf32max, hf32max,
      hmax _ _ _ _ (by norm_num) (by norm_num), hmax _ _ _ _ (by norm_num) (by norm_num),
      hmax _ _ _ _ (by norm_num) (by norm_num), hmax _ _ _ _ (by norm_num) (by norm_num),
      hmax _ _ _ _ (by norm_num) (by norm_num), hmax _ _ _ _ (by norm_num) (by norm_num),
      hmax _ _ _ _ (by norm_num) (by norm_num), hmax _ _ _ _ (by norm_num) (by norm_num),
      hfmax _ (by norm_num) (by norm_num), hfmax _ (by norm_num) (by norm_num),
      hfmax _ (by norm_num) (by norm_num), hfmax _ (by norm_num) (by norm_num)⟩

/-- C2 witness: the amended theorem at `v = 2` (clips everywhere) and
`v = 3/2` (clips the f32 32-bit formats). -/
theorem c2_clipping_boundary_amended_witness :
    (SampleF64.to_s16_le 2).2 = true ∧ (SampleF32.to_s32_le (3 / 2)).2 = true :=
  ⟨(c2_clipping_boundary_amended.1 2 (by norm_num)).1,
    ((c2_clipping_boundary_amended.2.1 (3 / 2) (by norm_num)).2.2.2.2).1⟩

/-- C3 counterexample: the spec-modelled 24-bit encoder (scale by
`2^23`, store the low-order 3 bytes) disagrees with the source's
(scale by `2^31`, store the high-order 3 bytes): at
`v = -2 ^ (-31)` the spec model stores `[0, 0, 0]` (decoding to `0`)
while the source stores `[255, 255, 255]` (decoding to `-2 ^ (-23)`). -/
theorem c3_packing_rule_counterexample :
    SpecC3.to_s24_3_le (-(1 / 2147483648)) = ([0, 0, 0], false) ∧
    SampleF64.to_s24_3_le (-(1 / 2147483648)) = ([255, 255, 255], false) ∧
    SampleF64.from_s24_3_le [0, 0, 0] = 0 ∧
    SampleF64.from_s24_3_le [255, 255, 255] = -(1 / 8388608) := by
  refine ⟨?_, ?_, ?_, ?_⟩
  · norm_num [SpecC3.to_s24_3_le, clamp_int, rustTrunc, u32ofI32, byteAt]
  · norm_num [SampleF64.to_s24_3_le, clamp_int, rustTrunc, i32cast, u32ofI32, byteAt]
    decide
  · norm_num [SampleF64.from_s24_3_le, fromLeBytes, i32ofU32]
  · norm_num [SampleF64.from_s24_3_le, fromLeBytes, i32ofU32]

/-- C3 amended: the 24-bit encoders scale by `2^31` (not `2^23`), clamp
to the 32-bit integer range, truncate-and-saturate to `i32`, and store
the three HIGH-order bytes of the scaled integer (equivalently: the
4-byte encoding minus its zero padding byte, or the 32-bit encoding
minus its low-order byte); decoding zero-extends at the LOW-order byte
position — yielding `256 * (k / 256)` where `k` is the scaled clamped
integer — and divides by `2^31`. -/
theorem c3_s24_packing_amended :
    (∀ v : ℚ,
      (SampleF64.to_s24_3_le v).1 = ((SampleF64.to_s24_4_le v).1).take 3 ∧
      (SampleF64.to_s24_3_be v).1 = ((SampleF64.to_s24_4_be v).1).drop 1 ∧
      (SampleF32.to_s24_3_le v).1 = ((SampleF32.to_s24_4_le v).1).take 3 ∧
      (SampleF32.to_s24_3_be v).1 = ((SampleF32.to_s24_4_be v).1).drop 1 ∧
      (SampleF64.to_s24_3_le v).1 = ((SampleF64.to_s32_le v).1).drop 1 ∧
      (SampleF64.to_s24_3_be v).1 = ((SampleF64.to_s32_be v).1).take 3 ∧
      (SampleF32.to_s24_3_le v).1 = ((SampleF32.to_s32_le v).1).drop 1 ∧
      (SampleF32.to_s24_3_be v).1 = ((SampleF32.to_s32_be v).1).take 3 ∧
      SampleF64.from_s24_4_le (SampleF64.to_s24_4_le v).1
        = SampleF64.from_s24_3_le (SampleF64.to_s24_3_le v).1 ∧
      SampleF64.from_s24_4_be (SampleF64.to_s24_4_be v).1
        = SampleF64.from_s24_3_be (SampleF64.to_s24_3_be v).1 ∧
      SampleF32.from_s24_4_le (SampleF32.to_s24_4_le v).1
        = SampleF32.from_s24_3_le (SampleF32.to_s24_3_le v).1 ∧
      SampleF32.from_s24_4_be (SampleF32.to_s24_4_be v).1
        = SampleF32.from_s24_3_be (SampleF32.to_s24_3_be v).1) ∧
    (∀ v : ℚ,
      SampleF64.from_s24_3_le (SampleF64.to_s24_3_le v).1 =
        ((256 * (i32cast (clamp_int (-2147483648) 2147483647 (v * 2147483648)).1 / 256) : ℤ)
          : ℚ) / 2147483648 ∧
      SampleF64.from_s24_3_be (SampleF64.to_s24_3_be v).1 =
        ((256 * (i32cast (clamp_int (-2147483648) 2147483647 (v * 2147483648)).1 / 256) : ℤ)
          : ℚ) / 2147483648 ∧
      SampleF32.from_s24_3_le (SampleF32.to_s24_3_le v).1 =
        ((256 * (i32cast (clamp_int (-2147483648) 2147483648 (v * 2147483648)).1 / 256) : ℤ)
          : ℚ) / 2147483648 ∧
      SampleF32.from_s24_3_be (SampleF32.to_s24_3_be v).1 =
        ((256 * (i32cast (clamp_int (-2147483648) 2147483648 (v * 2147483648)).1 / 256) : ℤ)
          : ℚ) / 2147483648) := by
  constructor
  · intro v
    exact ⟨rfl, rfl, rfl, rfl, rfl, rfl, rfl, rfl, rfl, rfl, rfl, rfl⟩
  · intro v
    obtain ⟨h641, h642⟩ := i32cast_range (clamp_int (-2147483648) 2147483647 (v * 2147483648)).1
    obtain ⟨h321, h322⟩ := i32cast_range (clamp_int (-2147483648) 2147483648 (v * 2147483648)).1
    have hround : ∀ k : ℤ, -2147483648 ≤ k → k ≤ 2147483647 →
        roundIntF32 (256 * (k / 256)) = 256 * (k / 256) := by
      intro k hk1 hk2
      exact roundIntF32_eq_self _ (by omega) ⟨k / 256, rfl⟩
    refine ⟨?_, ?_, ?_, ?_⟩
    · simp only [SampleF64.from_s24_3_le, SampleF64.to_s24_3_le]
      rw [s24_3_le_store_decode _ h641 (by omega)]
    · simp only [SampleF64.from_s24_3_be, SampleF64.to_s24_3_be, List.cons_append,
        List.nil_append]
      rw [s24_3_be_store_decode _ h641 (by omega)]
    · simp only [SampleF32.from_s24_3_le, SampleF32.to_s24_3_le]
      rw [s24_3_le_store_decode _ h321 (by omega), hround _ h321 h322]
    · simp only [SampleF32.from_s24_3_be, SampleF32.to_s24_3_be, List.cons_append,
        List.nil_append]
      rw [s24_3_be_store_decode _ h321 (by omega), hround _ h321 h322]

/-- Reassembling the four little-endian bytes of a `u32` bit pattern
recovers it. -/
theorem le4_roundtrip (n : ℕ) (h : n < 2 ^ 32) : fromLeBytes (leBytes4 n) = n := by
  simp only [leBytes4, fromLeBytes, byteAt, List.foldr]
  omega

/-- Reassembling the four big-endian bytes of a `u32` bit pattern
recovers it. -/
theorem be4_roundtrip (n : ℕ) (h : n < 2 ^ 32) : fromBeBytes (beBytes4 n) = n := by
  simp only [beBytes4, fromBeBytes, byteAt, List.foldl]
  omega

/-- Reassembling the eight little-endian bytes of a `u64` bit pattern
recovers it. -/
theorem le8_roundtrip (n : ℕ) (h : n < 2 ^ 64) : fromLeBytes (leBytes8 n) = n := by
  simp only [leBytes8, fromLeBytes, byteAt, List.foldr]
  omega

/-- Reassembling the eight big-endian bytes of a `u64` bit pattern
recovers it. -/
theorem be8_roundtrip (n : ℕ) (h : n < 2 ^ 64) : fromBeBytes (beBytes8 n) = n := by
  simp only [beBytes8, fromBeBytes, byteAt, List.foldl]
  omega

/-- C1: decode∘encode round-trips for all 12 raw formats of both sample
types.  Integer formats are exact on multiples of the format's scaling
step (`k / 2^15`, `k / 2^23`, `k / 2^31` with `k` in the signed range;
for the `f32` sample's S32 format the multiple must itself be an `f32`
value, i.e. fixed by binary32 integer rounding — a restriction the
`f64` sample's S32 formats do not need).  Float formats of
width ≥ the sample width are exact on representable values in the
non-clipping range `[-1, 1)`; the `f64` sample's F32 format returns the
binary32 rounding of the value — exactness "within the precision of
the target width". -/
theorem c1_encode_decode_roundtrip (k16 k24 k32 k32f : ℤ) (v32 v64 : ℚ)
    (h16a : -32768 ≤ k16) (h16b : k16 ≤ 32767)
    (h24a : -8388608 ≤ k24) (h24b : k24 ≤ 8388607)
    (h32a : -2147483648 ≤ k32) (h32b : k32 ≤ 2147483647)
    (h32fa : -2147483648 ≤ k32f) (h32fb : k32f ≤ 2147483647)
    (h32r : roundIntF32 k32f = k32f)
    (hv32f : isF32 v32) (hv32d : isF64 v32) (hv32a : -1 ≤ v32) (hv32b : v32 < 1)
    (hv64 : isF64 v64) (hv64a : -1 ≤ v64) (hv64b : v64 < 1)
    (hvr : isF32 (roundF32q v64)) (hra : -1 ≤ roundF32q v64) (hrb : roundF32q v64 < 1) :
    SampleF64.from_s16_le (SampleF64.to_s16_le ((k16 : ℚ) / 32768)).1 = (k16 : ℚ) / 32768 ∧
    SampleF64.from_s16_be (SampleF64.to_s16_be ((k16 : ℚ) / 32768)).1 = (k16 : ℚ) / 32768 ∧
    SampleF64.from_s24_3_le (SampleF64.to_s24_3_le ((k24 : ℚ) / 8388608)).1
      = (k24 : ℚ) / 8388608 ∧
    SampleF64.from_s24_3_be (SampleF64.to_s24_3_be ((k24 : ℚ) / 8388608)).1
      = (k24 : ℚ) / 8388608 ∧
    SampleF64.from_s24_4_le (SampleF64.to_s24_4_le ((k24 : ℚ) / 8388608)).1
      = (k24 : ℚ) / 8388608 ∧
    SampleF64.from_s24_4_be (SampleF64.to_s24_4_be ((k24 : ℚ) / 8388608)).1
      = (k24 : ℚ) / 8388608 ∧
    SampleF64.from_s32_le (SampleF64.to_s32_le ((k32 : ℚ) / 2147483648)).1
      = (k32 : ℚ) / 2147483648 ∧
    SampleF64.from_s32_be (SampleF64.to_s32_be ((k32 : ℚ) / 2147483648)).1
      = (k32 : ℚ) / 2147483648 ∧
    SampleF64.from_f64_le (SampleF64.to_f64_le v64).1 = v64 ∧
    SampleF64.from_f64_be (SampleF64.to_f64_be v64).1 = v64 ∧
    SampleF64.from_f32_le (SampleF64.to_f32_le v64).1 = roundF32q v64 ∧
    SampleF64.from_f32_be (SampleF64.to_f32_be v64).1 = roundF32q v64 ∧
    SampleF32.from_s16_le (SampleF32.to_s16_le ((k16 : ℚ) / 32768)).1 = (k16 : ℚ) / 32768 ∧
    SampleF32.from_s16_be (SampleF32.to_s16_be ((k16 : ℚ) / 32768)).1 = (k16 : ℚ) / 32768 ∧
    SampleF32.from_s24_3_le (SampleF32.to_s24_3_le ((k24 : ℚ) / 8388608)).1
      = (k24 : ℚ) / 8388608 ∧
    SampleF32.from_s24_3_be (SampleF32.to_s24_3_be ((k24 : ℚ) / 8388608)).1
      = (k24 : ℚ) / 8388608 ∧
    SampleF32.from_s24_4_le (SampleF32.to_s24_4_le ((k24 : ℚ) / 8388608)).1
      = (k24 : ℚ) / 8388608 ∧
    SampleF32.from_s24_4_be (SampleF32.to_s24_4_be ((k24 : ℚ) / 8388608)).1
      = (k24 : ℚ) / 8388608 ∧
    SampleF32.from_s32_le (SampleF32.to_s32_le ((k32f : ℚ) / 2147483648)).1
      = (k32f : ℚ) / 2147483648 ∧
    SampleF32.from_s32_be (SampleF32.to_s32_be ((k32f : ℚ) / 2147483648)).1
      = (k32f : ℚ) / 2147483648 ∧
    SampleF32.from_f32_le (SampleF32.to_f32_le v32).1 = v32 ∧
    SampleF32.from_f32_be (SampleF32.to_f32_be v32).1 = v32 ∧
    SampleF32.from_f64_le (SampleF32.to_f64_le v32).1 = v32 ∧
    SampleF32.from_f64_be (SampleF32.to_f64_be v32).1 = v32 := by
  obtain ⟨hb32, hp32, hr32⟩ := hv32f
  obtain ⟨hb32d, hp32d⟩ := hv32d
  obtain ⟨hb64, hp64⟩ := hv64
  obtain ⟨hbr, hpr, hrr⟩ := hvr
  have hm16 : ((k16 : ℚ) / 32768) * 32768 = (k16 : ℚ) := div_mul_cancel₀ _ (by norm_num)
  have hm24 : ((k24 : ℚ) / 8388608) * 2147483648 = ((256 * k24 : ℤ) : ℚ) := by
    push_cast; ring
  have hm32 : ((k32 : ℚ) / 2147483648) * 2147483648 = (k32 : ℚ) :=
    div_mul_cancel₀ _ (by norm_num)
  have hm32f : ((k32f : ℚ) / 2147483648) * 2147483648 = (k32f : ℚ) :=
    div_mul_cancel₀ _ (by norm_num)
  have hc16 : (clamp_int (-32768) 32767 ((k16 : ℚ))).1 = (k16 : ℚ) := by
    rw [clamp_int_eq_self _ _ _ (by exact_mod_cast h16a) (by exact_mod_cast h16b)]
  have hc24 : (clamp_int (-2147483648) 2147483647 (((256 * k24 : ℤ) : ℚ))).1
      = ((256 * k24 : ℤ) : ℚ) := by
    rw [clamp_int_eq_self _ _ _
      (by exact_mod_cast (by omega : (-2147483648 : ℤ) ≤ 256 * k24))
      (by exact_mod_cast (by omega : (256 * k24 : ℤ) ≤ 2147483647))]
  have hc24f : (clamp_int (-2147483648) 2147483648 (((256 * k24 : ℤ) : ℚ))).1
      = ((256 * k24 : ℤ) : ℚ) := by
    rw [clamp_int_eq_self _ _ _
      (by exact_mod_cast (by omega : (-2147483648 : ℤ) ≤ 256 * k24))
      (by exact_mod_cast (by omega : (256 * k24 : ℤ) ≤ 2147483648))]
  have hc32 : (clamp_int (-2147483648) 2147483647 ((k32 : ℚ))).1 = (k32 : ℚ) := by
    rw [clamp_int_eq_self _ _ _ (by exact_mod_cast h32a) (by exact_mod_cast h32b)]
  have hc32f : (clamp_int (-2147483648) 2147483648 ((k32f : ℚ))).1 = (k32f : ℚ) := by
    rw [clamp_int_eq_self _ _ _ (by exact_mod_cast h32fa)
      (by exact_mod_cast (by omega : k32f ≤ (2147483648 : ℤ)))]
  have hi24 : i32cast ((256 * k24 : ℤ) : ℚ) = 256 * k24 :=
    i32cast_intCast _ (by omega) (by omega)
  have hq24 : (256 * k24 / 256 : ℤ) = k24 := by omega
  have hround24 : roundIntF32 (256 * k24) = 256 * k24 :=
    roundIntF32_eq_self _ (by omega) ⟨k24, rfl⟩
  have hfc64 : (clamp_float v64).1 = v64 := by rw [clamp_float_eq_self v64 hv64a hv64b]
  have hfc32 : (clamp_float v32).1 = v32 := by rw [clamp_float_eq_self v32 hv32a hv32b]
  have hfcr : (clamp_float (roundF32q v64)).1 = roundF32q v64 := by
    rw [clamp_float_eq_self _ hra hrb]
  refine ⟨?_, ?_, ?_, ?_, ?_, ?_, ?_, ?_, ?_, ?_, ?_, ?_,
    ?_, ?_, ?_, ?_, ?_, ?_, ?_, ?_, ?_, ?_, ?_, ?_⟩
  · simp only [SampleF64.to_s16_le, SampleF64.from_s16_le]
    rw [hm16, hc16, i16cast_intCast k16 h16a h16b, le16_roundtrip k16 h16a (by omega)]
  · simp only [SampleF64.to_s16_be, SampleF64.from_s16_be]
    rw [hm16, hc16, i16cast_intCast k16 h16a h16b, be16_roundtrip k16 h16a (by omega)]
  · simp only [SampleF64.to_s24_3_le, SampleF64.from_s24_3_le]
    rw [hm24, hc24, hi24, s24_3_le_store_decode _ (by omega) (by omega), hq24]
    push_cast; ring
  · simp only [SampleF64.to_s24_3_be, SampleF64.from_s24_3_be, List.cons_append,
      List.nil_append]
    rw [hm24, hc24, hi24, s24_3_be_store_decode _ (by omega) (by omega), hq24]
    push_cast; ring
  · simp only [SampleF64.to_s24_4_le, SampleF64.from_s24_4_le, List.take_succ_cons,
      List.take_zero]
    rw [hm24, hc24, hi24, s24_3_le_store_decode _ (by omega) (by omega), hq24]
    push_cast; ring
  · simp only [SampleF64.to_s24_4_be, SampleF64.from_s24_4_be, List.drop_succ_cons,
      List.drop_zero, List.cons_append, List.nil_append]
    rw [hm24, hc24, hi24, s24_3_be_store_decode _ (by omega) (by omega), hq24]
    push_cast; ring
  · simp only [SampleF64.to_s32_le, SampleF64.from_s32_le]
    rw [hm32, hc32, i32cast_intCast k32 h32a h32b, le32_roundtrip k32 h32a (by omega)]
  · simp only [SampleF64.to_s32_be, SampleF64.from_s32_be]
    rw [hm32, hc32, i32cast_intCast k32 h32a h32b, be32_roundtrip k32 h32a (by omega)]
  · simp only [SampleF64.to_f64_le, SampleF64.from_f64_le]
    rw [hfc64, le8_roundtrip _ hb64, hp64]
  · simp only [SampleF64.to_f64_be, SampleF64.from_f64_be]
    rw [hfc64, be8_roundtrip _ hb64, hp64]
  · simp only [SampleF64.to_f32_le, SampleF64.from_f32_le]
    rw [hfcr, le4_roundtrip _ hbr, hpr]
  · simp only [SampleF64.to_f32_be, SampleF64.from_f32_be]
    rw [hfcr, be4_roundtrip _ hbr, hpr]
  · simp only [SampleF32.to_s16_le, SampleF32.from_s16_le]
    rw [hm16, hc16, i16cast_intCast k16 h16a h16b, le16_roundtrip k16 h16a (by omega)]
  · simp only [SampleF32.to_s16_be, SampleF32.from_s16_be]
    rw [hm16, hc16, i16cast_intCast k16 h16a h16b, be16_roundtrip k16 h16a (by omega)]
  · simp only [SampleF32.to_s24_3_le, SampleF32.from_s24_3_le]
    rw [hm24, hc24f, hi24, s24_3_le_store_decode _ (by omega) (by omega), hq24, hround24]
    push_cast; ring
  · simp only [SampleF32.to_s24_3_be, SampleF32.from_s24_3_be, List.cons_append,
      List.nil_append]
    rw [hm24, hc24f, hi24, s24_3_be_store_decode _ (by omega) (by omega), hq24, hround24]
    push_cast; ring
  · simp only [SampleF32.to_s24_4_le, SampleF32.from_s24_4_le, List.take_succ_cons,
      List.take_zero]
    rw [hm24, hc24f, hi24, s24_3_le_store_decode _ (by omega) (by omega), hq24, hround24]
    push_cast; ring
  · simp only [SampleF32.to_s24_4_be, SampleF32.from_s24_4_be, List.drop_succ_cons,
      List.drop_zero, List.cons_append, List.nil_append]
    rw [hm24, hc24f, hi24, s24_3_be_store_decode _ (by omega) (by omega), hq24, hround24]
    push_cast; ring
  · simp only [SampleF32.to_s32_le, SampleF32.from_s32_le]
    rw [hm32f, hc32f, i32cast_intCast k32f h32fa h32fb,
      le32_roundtrip k32f h32fa (by omega), h32r]
  · simp only [SampleF32.to_s32_be, SampleF32.from_s32_be]
    rw [hm32f, hc32f, i32cast_intCast k32f h32fa h32fb,
      be32_roundtrip k32f h32fa (by omega), h32r]
  · simp only [SampleF32.to_f32_le, SampleF32.from_f32_le]
    rw [hfc32, le4_roundtrip _ hb32, hp32]
  · simp only [SampleF32.to_f32_be, SampleF32.from_f32_be]
    rw [hfc32, be4_roundtrip _ hb32, hp32]
  · simp only [SampleF32.to_f64_le, SampleF32.from_f64_le]
    rw [hfc32, le8_roundtrip _ hb32d, hp32d, hr32]
  · simp only [SampleF32.to_f64_be, SampleF32.from_f64_be]
    rw [hfc32, be8_roundtrip _ hb32d, hp32d, hr32]

/-- C1 witness: the round-trip theorem instantiated at `k16 = 5`,
`k24 = -7`, `k32 = 2^24 + 1` (an in-range step multiple for the `f64`
sample that is NOT an `f32` value), `k32f = 1024`, `v32 = 1/2`,
`v64 = -3/4`. -/
theorem c1_encode_decode_roundtrip_witness :
    SampleF64.from_s16_le (SampleF64.to_s16_le (((5 : ℤ) : ℚ) / 32768)).1
      = ((5 : ℤ) : ℚ) / 32768 ∧
    SampleF64.from_s32_le (SampleF64.to_s32_le (((16777217 : ℤ) : ℚ) / 2147483648)).1
      = ((16777217 : ℤ) : ℚ) / 2147483648 ∧
    SampleF32.from_f64_le (SampleF32.to_f64_le (1 / 2)).1 = 1 / 2 := by
  have habs2 : |(1 / 2 : ℚ)| = 1 / 2 := by norm_num
  have habs34 : |(-(3 / 4) : ℚ)| = 3 / 4 := by norm_num
  have hqhalf : qlog2 (1 / 2 : ℚ) = -1 := by norm_num [qlog2, nlog2, nlog2aux]
  have hq34 : qlog2 (3 / 4 : ℚ) = -1 := by norm_num [qlog2, nlog2, nlog2aux]
  have hrhalf : roundF32q (1 / 2) = 1 / 2 := by
    have h := roundF32q_eq_down (1 / 2) (-1) 8388608 (by norm_num)
      (by rw [habs2, hqhalf]; decide) (by norm_num) (by norm_num)
    rw [h]; norm_num
  have hrneg : roundF32q (-(3 / 4)) = -(3 / 4) := by
    have h := roundF32q_eq_down (-(3 / 4)) (-1) (-12582912) (by norm_num)
      (by rw [habs34, hq34]; decide) (by norm_num) (by norm_num)
    rw [h]; norm_num
  have hb32half : f32bits (1 / 2) = 1056964608 := by
    simp only [f32bits, habs2, hqhalf]
    norm_num
    omega
  have hb64half : f64bits (1 / 2) = 4602678819172646912 := by
    simp only [f64bits, habs2, hqhalf]
    norm_num
    omega
  have hb64v : f64bits (-(3 / 4)) = 13828302655841107968 := by
    simp only [f64bits, habs34, hq34]
    norm_num
    omega
  have hbr32 : f32bits (-(3 / 4)) = 3208642560 := by
    simp only [f32bits, habs34, hq34]
    norm_num
    omega
  have h := c1_encode_decode_roundtrip 5 (-7) 16777217 1024 (1 / 2) (-(3 / 4))
    (by norm_num) (by norm_num) (by norm_num) (by norm_num) (by norm_num) (by norm_num)
    (by norm_num) (by norm_num)
    (by decide)
    ⟨by rw [hb32half]; norm_num, by rw [hb32half]; norm_num [parseF32bits], hrhalf⟩
    ⟨by rw [hb64half]; norm_num, by rw [hb64half]; norm_num [parseF64bits]⟩
    (by norm_num) (by norm_num)
    ⟨by rw [hb64v]; norm_num, by rw [hb64v]; norm_num [parseF64bits]⟩
    (by norm_num) (by norm_num)
    (by rw [hrneg]
        exact ⟨by rw [hbr32]; norm_num, by rw [hbr32]; norm_num [parseF32bits], hrneg⟩)
    (by rw [hrneg]; norm_num) (by rw [hrneg]; norm_num)
  exact ⟨h.1, h.2.2.2.2.2.2.1, h.2.2.2.2.2.2.2.2.2.2.2.2.2.2.2.2.2.2.2.2.2.2.1⟩
